import Mathlib

/-!
# mail-sink: the session state machine and the attachment scanner

A shallow embedding of `mail-sink.go`.

* A Go `string` is read as its sequence of runes (`GoString = List Char`), so the
  development covers every line that is valid UTF-8.
* The connection is replaced by the list of lines that `ReadLine` returns; the end of
  the list is the read error that ends `HandleClient`.
* The working directory is a `FileMap`: which file a name denotes there (none when
  `os.WriteFile` fails for the name, and two names may denote one file) and what each
  file holds. `os.WriteFile` returns an error or the directory with that file replaced.
* `go s.processAttachments()` reads `s.attachmentData` when the goroutine gets to run.
  `runSpawned` runs it at the `go` statement, on the lines accumulated so far; what a
  later start can read is bounded by `sessionLoop_attachmentData_grows`: the same
  lines, followed by the lines captured since.
* Logging is left out: it has no effect on replies, session state or files.
-/

namespace MailSink

/-- A Go string, as the sequence of its runes. -/
abbrev GoString := List Char

/-- The working directory as `os.WriteFile` meets it. `resolve name` is the file that
`name` denotes there, `none` when a write to `name` fails (an empty name, a missing
directory in the path, a directory of that name); two names may denote one file, as
`a.txt` and `./a.txt` do. `content file` is what the file holds (bytes as numbers
below 256), `none` when it does not exist. -/
structure FileMap where
  resolve : GoString → Option GoString
  content : GoString → Option (List Nat)

/-- What a read of `name` gives: the content of the file that `name` denotes. -/
def FileMap.read (files : FileMap) (name : GoString) : Option (List Nat) :=
  match files.resolve name with
  | none => none
  | some file => files.content file

/-- A directory applied to a name is the read of that name. -/
instance : CoeFun FileMap (fun _ => GoString → Option (List Nat)) := ⟨FileMap.read⟩

/-- A name that denotes a file of an empty directory with no subdirectories: not
empty, not `.` or `..`, and with no slash and no NUL in it. -/
def plainName (name : GoString) : Bool :=
  !name.isEmpty && !name.contains (Char.ofNat 47) && !name.contains (Char.ofNat 0) &&
    name != ".".toList && name != "..".toList

/-- A name without its leading `./` steps, which do not change the file it denotes. -/
def dropDotSlash : GoString → GoString
  | a :: b :: rest =>
    if a = Char.ofNat 46 ∧ b = Char.ofNat 47 then dropDotSlash rest else a :: b :: rest
  | name => name

/-- A sample directory for evaluating examples: no files and no subdirectories. A name
that is plain behind its leading `./` steps denotes the file of that plain name, so
`a.txt` and `./a.txt` are one file; a write to any other name fails. -/
def emptyFiles : FileMap :=
  { resolve := fun name =>
      if plainName (dropDotSlash name) then some (dropDotSlash name) else none
    content := fun _ => none }

/-- Model of `os.WriteFile(name, data, 0644)`: `none` is the returned error, otherwise
the directory in which the file that `name` denotes holds `data`, created or
overwritten. -/
def WriteFile (files : FileMap) (name : GoString) (data : List Nat) : Option FileMap :=
  match files.resolve name with
  | none => none
  | some file =>
    some { files with content := fun f => if f = file then some data else files.content f }

/-- The directory after `saveAttachment` has called `os.WriteFile(name, data, 0644)`:
the written directory, or the directory as it was when the call returned an error,
which `saveAttachment` only logs. -/
def afterWrite (files : FileMap) (name : GoString) (data : List Nat) : FileMap :=
  match WriteFile files name data with
  | none => files
  | some written => written

/-! ## Library functions used by the source -/

/-- Model of `strings.HasPrefix(s, pre)`. -/
def HasPrefix (s pre : GoString) : Bool := pre.isPrefixOf s

/-- Model of `unicode.IsSpace`: the runes with the White_Space property. -/
def isSpace (c : Char) : Bool :=
  let n := c.toNat
  (9 ≤ n && n ≤ 13) || n == 32 || n == 0x85 || n == 0xA0 || n == 0x1680 ||
  (0x2000 ≤ n && n ≤ 0x200a) || n == 0x2028 || n == 0x2029 || n == 0x202f ||
  n == 0x205f || n == 0x3000

/-- Model of `strings.TrimSpace`: leading and trailing white space removed. -/
def TrimSpace (s : GoString) : GoString :=
  ((s.dropWhile isSpace).reverse.dropWhile isSpace).reverse

/-- ASCII part of `unicode.ToLower`: `A`..`Z` to `a`..`z`, other runes unchanged. -/
def lowerRune (c : Char) : Char :=
  if 65 ≤ c.toNat ∧ c.toNat ≤ 90 then Char.ofNat (c.toNat + 32) else c

/-- The normalisation `strings.ToLower(strings.TrimSpace(line))` of `HandleClient`,
with the case mapping restricted to ASCII letters. The session loop below takes the
normalisation as a parameter, so its theorems do not depend on this restriction. -/
def normalize (s : GoString) : GoString := (TrimSpace s).map lowerRune

/-- Model of `strings.Join(lines, "")`. -/
def Join (lines : List GoString) : GoString := lines.flatten

/-- The decode map of `base64.StdEncoding`: the 6-bit value of an alphabet rune. -/
def decodeMap (c : Char) : Option Nat :=
  let n := c.toNat
  if 65 ≤ n ∧ n ≤ 90 then some (n - 65)
  else if 97 ≤ n ∧ n ≤ 122 then some (n - 97 + 26)
  else if 48 ≤ n ∧ n ≤ 57 then some (n - 48 + 52)
  else if n = 43 then some 62
  else if n = 47 then some 63
  else none

/-- The padding rune `=` of `base64.StdEncoding`. -/
def padChar : Char := Char.ofNat 61

/-- Decoding of a newline-free input in quanta of four runes, as `decodeQuantum` of
`encoding/base64` does for the padded, non-strict standard encoding: a quantum of
four alphabet runes gives three bytes; padding (`xx==`, `xxx=`) is accepted only
in the last quantum; anything else is a corrupt input. -/
def decodeQuanta : List Char → Option (List Nat)
  | [] => some []
  | a :: b :: c :: d :: rest =>
    match decodeMap a, decodeMap b with
    | some x, some y =>
      match decodeMap c with
      | some z =>
        match decodeMap d with
        | some w =>
          (decodeQuanta rest).map fun t =>
            (x * 4 + y / 16) :: ((y % 16) * 16 + z / 4) :: ((z % 4) * 64 + w) :: t
        | none =>
          if d = padChar ∧ rest = [] then some [x * 4 + y / 16, (y % 16) * 16 + z / 4]
          else none
      | none =>
        if c = padChar ∧ d = padChar ∧ rest = [] then some [x * 4 + y / 16] else none
    | _, _ => none
  | _ => none

/-- The runes `base64` skips while decoding: carriage return and line feed. -/
def isNewline (c : Char) : Bool := c.toNat == 10 || c.toNat == 13

/-- Model of `base64.StdEncoding.DecodeString`: `\r` and `\n` are ignored wherever
they stand, the rest is decoded in quanta; `none` is the decoding error. -/
def DecodeString (s : GoString) : Option (List Nat) :=
  decodeQuanta (s.filter fun c => !isNewline c)

/-- Consumes the literal `lit` at the head of the input; `none` when it is not there. -/
def stripLit : GoString → GoString → Option GoString
  | [], s => some s
  | _ :: _, [] => none
  | p :: ps, c :: cs => if p = c then stripLit ps cs else none

/-- The double quote rune. -/
def dquote : Char := Char.ofNat 34

/-- The literal part `filename="` of `filenameRegex`. -/
def filenameLit : GoString := "filename=".toList ++ [dquote]

/-- A match of `filename="([^"]+)"` that starts exactly at the head of the input:
the literal, then one or more runes other than a quote, then a quote. The result is
the capture group. -/
def filenameAt (s : GoString) : Option GoString :=
  match stripLit filenameLit s with
  | none => none
  | some rest =>
    match rest.dropWhile (fun c => c != dquote) with
    | [] => none
    | _ :: _ =>
      if rest.takeWhile (fun c => c != dquote) = [] then none
      else some (rest.takeWhile fun c => c != dquote)

/-- Model of `filenameRegex.FindStringSubmatch(line)`, reduced to the capture group
`matches[1]` of the leftmost match; `none` is the `nil` result. -/
def filenameRegexFind : GoString → Option GoString
  | [] => none
  | c :: cs =>
    match filenameAt (c :: cs) with
    | some name => some name
    | none => filenameRegexFind cs

/-- Representative of a rune under the simple case folding that `(?i)` applies, for
the orbits of ASCII letters: upper case to lower case, and the two non-ASCII runes
that fold to an ASCII letter (U+017F to `s`, U+212A to `k`). -/
def foldRune (c : Char) : Char :=
  if c.toNat = 0x17F then Char.ofNat 115
  else if c.toNat = 0x212A then Char.ofNat 107
  else lowerRune c

/-- Consumes the literal `lit` at the head of the input, comparing up to case folding. -/
def stripLitFold : GoString → GoString → Option GoString
  | [], s => some s
  | _ :: _, [] => none
  | p :: ps, c :: cs => if foldRune p = foldRune c then stripLitFold ps cs else none

/-- The class `\s` of Go regular expressions: tab, line feed, form feed, carriage
return and space. -/
def isReSpace (c : Char) : Bool :=
  c.toNat == 9 || c.toNat == 10 || c.toNat == 12 || c.toNat == 13 || c.toNat == 32

/-- A match of `(?i)Content-Transfer-Encoding:\s*base64` that starts at the head of
the input. -/
def encodingAt (s : GoString) : Bool :=
  match stripLitFold "Content-Transfer-Encoding:".toList s with
  | none => false
  | some rest => (stripLitFold "base64".toList (rest.dropWhile isReSpace)).isSome

/-- Model of `encodingRegex.MatchString(line)`: a match starting anywhere in the line. -/
def encodingRegexMatch : GoString → Bool
  | [] => false
  | c :: cs => encodingAt (c :: cs) || encodingRegexMatch cs

/-- The runes that an input accepted by `DecodeString` can hold: the alphabet, the
padding rune and the two newline runes. -/
def b64Runes : List Char :=
  "ABCDEFGHIJKLMNOPQRSTUVWXYZabcdefghijklmnopqrstuvwxyz0123456789+/=\n\r".toList

/-! ## The attachment scanner -/

/-- Model of `saveAttachment`: nothing happens for an empty file name or no lines, when
the joined lines do not decode, or when `os.WriteFile` returns an error; otherwise the
decoded bytes are written. -/
def saveAttachment (files : FileMap) (filename : GoString) (b64Lines : List GoString) :
    FileMap :=
  if filename = [] ∨ b64Lines.length = 0 then files
  else
    match DecodeString (Join b64Lines) with
    | none => files
    | some data =>
      match WriteFile files filename data with
      | none => files
      | some written => written

/-- The local variables of `processAttachments`, with the directory. -/
structure ScanState where
  filename : GoString
  inAttachment : Bool
  b64Lines : List GoString
  files : FileMap

/-- The state in which `processAttachments` enters its loop. -/
def ScanState.init (files : FileMap) : ScanState :=
  { filename := [], inAttachment := false, b64Lines := [], files := files }

/-- One iteration of the loop of `processAttachments` over `s.attachmentData`. -/
def scanLine (st : ScanState) (line : GoString) : ScanState :=
  match filenameRegexFind line with
  | some name => { st with filename := name }
  | none =>
    if encodingRegexMatch line then { st with inAttachment := true, b64Lines := [] }
    else if st.inAttachment then
      if HasPrefix line "--".toList then
        { st with
          inAttachment := false
          files := saveAttachment st.files st.filename st.b64Lines
          b64Lines := st.b64Lines ++ [TrimSpace line] }
      else { st with b64Lines := st.b64Lines ++ [TrimSpace line] }
    else st

/-- The loop of `processAttachments`. -/
def scanLines (st : ScanState) (body : List GoString) : ScanState :=
  body.foldl scanLine st

/-- Model of `processAttachments` on the body `attachmentData`: the loop, then the
save of an attachment that no boundary closed. -/
def processAttachments (files : FileMap) (attachmentData : List GoString) : FileMap :=
  let st := scanLines (ScanState.init files) attachmentData
  if st.inAttachment ∧ st.filename ≠ [] then saveAttachment st.files st.filename st.b64Lines
  else st.files

/-- The loop of `processAttachments` takes its second branch on `line`, the one that
resets the accumulator: the line matches the encoding regex and holds no filename
marker. This is narrower than matching the encoding regex: a line that matches both
regexes takes the first branch and only records a filename. -/
def isEncodingMarker (line : GoString) : Bool :=
  (filenameRegexFind line).isNone && encodingRegexMatch line

/-- The loop of `processAttachments` calls `saveAttachment` on `line` in the state
`st`: the line is no marker, a section is open and the line begins with `--`. -/
def closesSection (st : ScanState) (line : GoString) : Bool :=
  (filenameRegexFind line).isNone && !encodingRegexMatch line && st.inAttachment &&
    HasPrefix line "--".toList

/-- The calls of `saveAttachment` made by the loop of `processAttachments`, in order,
each as its arguments `(filename, b64Lines)`. -/
def scanCalls (st : ScanState) : List GoString → List (GoString × List GoString)
  | [] => []
  | line :: rest =>
    (if closesSection st line then [(st.filename, st.b64Lines)] else []) ++
      scanCalls (scanLine st line) rest

/-- All calls of `saveAttachment` made by `processAttachments`: those of the loop, then
the one behind the loop for an attachment that no boundary closed. -/
def saveCalls (files : FileMap) (body : List GoString) : List (GoString × List GoString) :=
  scanCalls (ScanState.init files) body ++
    (if (scanLines (ScanState.init files) body).inAttachment ∧
        (scanLines (ScanState.init files) body).filename ≠ [] then
      [((scanLines (ScanState.init files) body).filename,
        (scanLines (ScanState.init files) body).b64Lines)]
    else [])

/-- The encoded lines as the specification words them, for the lines `before` a
closing boundary or the end of the body: of the lines that lie strictly after the last
encoding marker, those that are no filename marker, each trimmed. -/
def specEncodedLines (before : List GoString) : List GoString :=
  (((before.reverse.takeWhile fun l => !isEncodingMarker l).reverse).filter
    fun l => (filenameRegexFind l).isNone).map TrimSpace

/-- The runes for which `isSpace` holds. -/
def spaceRunes : List Char :=
  [9, 10, 11, 12, 13, 32, 0x85, 0xA0, 0x1680, 0x2000, 0x2001, 0x2002, 0x2003, 0x2004,
   0x2005, 0x2006, 0x2007, 0x2008, 0x2009, 0x200a, 0x2028, 0x2029, 0x202f, 0x205f,
   0x3000].map Char.ofNat

/-- The four parts of one attachment section of a body: the filename-marker line, the
encoding-marker line, the content lines and the closing line. -/
structure AttachmentSection where
  fnLine : GoString
  encLine : GoString
  content : List GoString
  boundary : GoString

/-- One mail of a session: the command lines in front of it, the line that starts with
`data`, the captured lines and the terminating dot line. -/
structure MailTransfer where
  commands : List GoString
  dataLine : GoString
  lines : List GoString
  dotLine : GoString

/-! ## The session -/

/-- The fields of `SinkClient` that the session logic reads and writes. -/
structure SinkClient where
  dataSent : Bool
  attachmentData : List GoString
  deriving DecidableEq, Repr

/-- Model of `NewSinkClient`. -/
def NewSinkClient : SinkClient := { dataSent := false, attachmentData := [] }

/-- What a call of `handleQuery` returns and does: the returned code and reply, the
receiver afterwards, and the body handed to `processAttachments` when the call
spawned it. -/
structure QueryResult where
  code : Nat
  reply : String
  client : SinkClient
  spawned : Option (List GoString)
  deriving DecidableEq, Repr

/-- Model of `handleQuery(line, origLine)` on the receiver `s`; `saveAttached` is the
`-s` flag. -/
def handleQuery (saveAttached : Bool) (s : SinkClient) (line origLine : GoString) :
    QueryResult :=
  if HasPrefix line "data".toList then
    { code := 354, reply := "End data with <CR><LF>.<CR><LF>",
      client := { s with dataSent := true }, spawned := none }
  else if s.dataSent then
    if line = ".".toList then
      { code := 250, reply := "Ok, queued as 31337",
        client := { s with dataSent := false },
        spawned := if saveAttached then some s.attachmentData else none }
    else
      { code := 0, reply := "",
        client := { s with attachmentData := s.attachmentData ++ [origLine] },
        spawned := none }
  else
    { code := 250, reply := "Ok", client := s, spawned := none }

/-- What a session leaves behind: the replies sent with `respond`, the bodies handed
to `processAttachments`, the client state and the directory. -/
structure Outcome where
  replies : List (Nat × String)
  bodies : List (List GoString)
  client : SinkClient
  files : FileMap

/-- The directory after the goroutine spawned by a call of `handleQuery`, if any, when
the goroutine runs at once: it then reads the lines the receiver holds at the `go`
statement. A goroutine that starts later reads the receiver as it is then. -/
def runSpawned (files : FileMap) : Option (List GoString) → FileMap
  | none => files
  | some body => processAttachments files body

/-- The `for` loop of `HandleClient` over the lines read from the connection. `norm`
is the normalisation `strings.ToLower(strings.TrimSpace(·))`. -/
def sessionLoop (norm : GoString → GoString) (saveAttached : Bool) :
    SinkClient → FileMap → List GoString → Outcome
  | sc, files, [] => { replies := [], bodies := [], client := sc, files := files }
  | sc, files, logLine :: rest =>
    if norm logLine = "quit".toList then
      { replies := [(221, "Bye")], bodies := [], client := sc, files := files }
    else
      let r := handleQuery saveAttached sc (norm logLine) logLine
      let out := sessionLoop norm saveAttached r.client (runSpawned files r.spawned) rest
      { out with
        replies := (if r.code ≠ 0 then [(r.code, r.reply)] else []) ++ out.replies
        bodies := r.spawned.toList ++ out.bodies }

/-- Model of `HandleClient`: the greeting, then the loop on a new client. -/
def HandleClient (norm : GoString → GoString) (heloHostname : String) (saveAttached : Bool)
    (files : FileMap) (input : List GoString) : Outcome :=
  let out := sessionLoop norm saveAttached NewSinkClient files input
  { out with replies := (220, heloHostname ++ " SMTP mail-sink") :: out.replies }

/-! ## Library lemmas: base64, trimming, the two regular expressions -/

theorem rune_of_toNat (c : Char) (n : Nat) (h : c.toNat = n) : c = Char.ofNat n := by
  rw [← h, Char.ofNat_toNat]

theorem decodeMap_mem (c : Char) (h : (decodeMap c).isSome = true) : c ∈ b64Runes := by
  unfold decodeMap at h
  simp only at h
  have hc := rune_of_toNat c c.toNat rfl
  generalize c.toNat = n at h hc
  subst hc
  split_ifs at h with h1 h2 h3 h4 h5
  · obtain ⟨ha, hb⟩ := h1
    interval_cases n <;> decide
  · obtain ⟨ha, hb⟩ := h2
    interval_cases n <;> decide
  · obtain ⟨ha, hb⟩ := h3
    interval_cases n <;> decide
  · subst h4; decide
  · subst h5; decide
  · simp at h

theorem b64Runes_facts : ∀ c ∈ b64Runes,
    c ≠ dquote ∧ foldRune (Char.ofNat 45) ≠ foldRune c ∧ c ≠ Char.ofNat 45 ∧
      (isSpace c = true → isNewline c = true) := by
  decide

theorem padChar_mem : padChar ∈ b64Runes := by decide

theorem decodeQuanta_runes : ∀ (s : List Char) (d : List Nat),
    decodeQuanta s = some d → ∀ x ∈ s, x ∈ b64Runes
  | [], _, _, x, hx => absurd hx (List.not_mem_nil x)
  | [_], _, h, _, _ => by simp [decodeQuanta] at h
  | [_, _], _, h, _, _ => by simp [decodeQuanta] at h
  | [_, _, _], _, h, _, _ => by simp [decodeQuanta] at h
  | a :: b :: c :: e :: rest, d, h, x, hx => by
    rw [decodeQuanta] at h
    cases ha : decodeMap a with
    | none => simp [ha] at h
    | some va =>
      cases hb : decodeMap b with
      | none => simp [ha, hb] at h
      | some vb =>
        have ma := decodeMap_mem a (by rw [ha]; rfl)
        have mb := decodeMap_mem b (by rw [hb]; rfl)
        cases hc : decodeMap c with
        | none =>
          simp only [ha, hb, hc] at h
          split_ifs at h with hp
          obtain ⟨h1, h2, h3⟩ := hp
          subst h1 h2 h3
          simp only [List.mem_cons, List.not_mem_nil, or_false] at hx
          rcases hx with hx | hx | hx | hx <;> subst hx <;> first | assumption | exact padChar_mem
        | some vc =>
          have mc := decodeMap_mem c (by rw [hc]; rfl)
          cases he : decodeMap e with
          | none =>
            simp only [ha, hb, hc, he] at h
            split_ifs at h with hp
            obtain ⟨h1, h2⟩ := hp
            subst h1 h2
            simp only [List.mem_cons, List.not_mem_nil, or_false] at hx
            rcases hx with hx | hx | hx | hx <;> subst hx <;> first | assumption | exact padChar_mem
          | some ve =>
            have me := decodeMap_mem e (by rw [he]; rfl)
            simp only [ha, hb, hc, he] at h
            cases hr : decodeQuanta rest with
            | none => simp [hr] at h
            | some dr =>
              simp only [List.mem_cons] at hx
              rcases hx with hx | hx | hx | hx | hx
              · subst hx; assumption
              · subst hx; assumption
              · subst hx; assumption
              · subst hx; assumption
              · exact decodeQuanta_runes rest dr hr x hx

theorem isNewline_mem (c : Char) (h : isNewline c = true) : c ∈ b64Runes := by
  unfold isNewline at h
  rw [← Char.ofNat_toNat c]
  generalize c.toNat = n at h
  simp only [Bool.or_eq_true, beq_iff_eq] at h
  rcases h with h | h <;> subst h <;> decide

theorem DecodeString_runes (s : GoString) (d : List Nat) (h : DecodeString s = some d) :
    ∀ x ∈ s, x ∈ b64Runes := by
  intro x hx
  by_cases hn : isNewline x = true
  · exact isNewline_mem x hn
  · exact decodeQuanta_runes _ d h x (List.mem_filter.mpr ⟨hx, by simpa using hn⟩)

theorem filter_dropWhile_of_excl (p q : Char → Bool) (l : List Char)
    (h : ∀ c ∈ l, q c = true → p c = false) :
    (l.dropWhile q).filter p = l.filter p := by
  induction l with
  | nil => rfl
  | cons a l ih =>
    by_cases hq : q a = true
    · rw [List.dropWhile_cons_of_pos hq, ih (fun c hc => h c (List.mem_cons_of_mem a hc)),
        List.filter_cons_of_neg (by rw [h a (List.mem_cons_self a l) hq]; exact Bool.false_ne_true)]
    · rw [List.dropWhile_cons_of_neg hq]

theorem filter_TrimSpace (l : GoString) (h : ∀ c ∈ l, c ∈ b64Runes) :
    (TrimSpace l).filter (fun c => !isNewline c) = l.filter (fun c => !isNewline c) := by
  have hex : ∀ c ∈ l, isSpace c = true → (fun c => !isNewline c) c = false := by
    intro c hc hs
    simp [(b64Runes_facts c (h c hc)).2.2.2 hs]
  unfold TrimSpace
  rw [List.filter_reverse, filter_dropWhile_of_excl, List.filter_reverse, List.reverse_reverse,
    filter_dropWhile_of_excl _ _ _ hex]
  intro c hc
  exact hex c ((List.dropWhile_sublist _).subset (List.mem_reverse.mp hc))

theorem DecodeString_Join_TrimSpace (content : List GoString)
    (h : ∀ l ∈ content, ∀ c ∈ l, c ∈ b64Runes) :
    DecodeString (Join (content.map TrimSpace)) = DecodeString (Join content) := by
  unfold DecodeString Join
  rw [List.filter_flatten, List.filter_flatten, List.map_map]
  congr 2
  apply List.map_congr_left
  intro l hl
  exact filter_TrimSpace l (h l hl)

theorem stripLit_eq (lit s rest : GoString) (h : stripLit lit s = some rest) :
    s = lit ++ rest := by
  induction lit generalizing s with
  | nil => simp [stripLit] at h; simp [h]
  | cons p ps ih =>
    cases s with
    | nil => simp [stripLit] at h
    | cons c cs =>
      rw [stripLit] at h
      split_ifs at h with hpc
      rw [hpc, ih cs h]
      rfl

theorem filenameAt_dquote (s n : GoString) (h : filenameAt s = some n) : dquote ∈ s := by
  unfold filenameAt at h
  cases hs : stripLit filenameLit s with
  | none => simp [hs] at h
  | some rest =>
    rw [stripLit_eq _ _ _ hs]
    exact List.mem_append_left _ (by decide)

theorem filenameAt_ne_nil (s n : GoString) (h : filenameAt s = some n) : n ≠ [] := by
  unfold filenameAt at h
  cases hs : stripLit filenameLit s with
  | none => simp [hs] at h
  | some rest =>
    simp only [hs] at h
    split at h
    · simp at h
    · split_ifs at h with hn
      simp only [Option.some.injEq] at h
      rw [← h]
      exact hn

theorem filenameRegexFind_dquote (l n : GoString) (h : filenameRegexFind l = some n) :
    dquote ∈ l := by
  induction l with
  | nil => simp [filenameRegexFind] at h
  | cons c cs ih =>
    rw [filenameRegexFind] at h
    cases ha : filenameAt (c :: cs) with
    | some m => exact filenameAt_dquote _ m ha
    | none =>
      simp only [ha] at h
      exact List.mem_cons_of_mem c (ih h)

theorem filenameRegexFind_ne_nil (l n : GoString) (h : filenameRegexFind l = some n) :
    n ≠ [] := by
  induction l with
  | nil => simp [filenameRegexFind] at h
  | cons c cs ih =>
    rw [filenameRegexFind] at h
    cases ha : filenameAt (c :: cs) with
    | some m =>
      simp only [ha, Option.some.injEq] at h
      rw [← h]
      exact filenameAt_ne_nil _ m ha
    | none =>
      simp only [ha] at h
      exact ih h

theorem stripLitFold_mem (lit s rest : GoString) (h : stripLitFold lit s = some rest) :
    ∀ p ∈ lit, ∃ c ∈ s, foldRune p = foldRune c := by
  induction lit generalizing s with
  | nil => intro p hp; exact absurd hp (List.not_mem_nil p)
  | cons q qs ih =>
    cases s with
    | nil => simp [stripLitFold] at h
    | cons c cs =>
      rw [stripLitFold] at h
      split_ifs at h with hqc
      intro p hp
      rcases List.mem_cons.mp hp with hp | hp
      · exact ⟨c, List.mem_cons_self c cs, by rw [hp]; exact hqc⟩
      · obtain ⟨x, hx, hfx⟩ := ih cs h p hp
        exact ⟨x, List.mem_cons_of_mem c hx, hfx⟩

theorem encodingAt_hyphen (s : GoString) (h : encodingAt s = true) :
    ∃ c ∈ s, foldRune (Char.ofNat 45) = foldRune c := by
  unfold encodingAt at h
  cases hs : stripLitFold "Content-Transfer-Encoding:".toList s with
  | none =>
    rw [hs] at h
    exact absurd h Bool.false_ne_true
  | some rest => exact stripLitFold_mem _ s rest hs (Char.ofNat 45) (by decide)

theorem encodingRegexMatch_hyphen (l : GoString) (h : encodingRegexMatch l = true) :
    ∃ c ∈ l, foldRune (Char.ofNat 45) = foldRune c := by
  induction l with
  | nil => simp [encodingRegexMatch] at h
  | cons c cs ih =>
    rw [encodingRegexMatch, Bool.or_eq_true] at h
    rcases h with h | h
    · exact encodingAt_hyphen _ h
    · obtain ⟨x, hx, hfx⟩ := ih h
      exact ⟨x, List.mem_cons_of_mem c hx, hfx⟩

theorem HasPrefix_hyphen (l : GoString) (h : HasPrefix l "--".toList = true) :
    Char.ofNat 45 ∈ l := by
  unfold HasPrefix at h
  rw [List.isPrefixOf_iff_prefix] at h
  obtain ⟨t, ht⟩ := h
  rw [← ht]
  exact List.mem_append_left _ (by decide)

/-- A line of base64 runes is no marker and no boundary. -/
theorem content_line_plain (l : GoString) (h : ∀ c ∈ l, c ∈ b64Runes) :
    filenameRegexFind l = none ∧ encodingRegexMatch l = false ∧
      HasPrefix l "--".toList = false := by
  refine ⟨?_, ?_, ?_⟩
  · cases hf : filenameRegexFind l with
    | none => rfl
    | some n =>
      exact absurd rfl ((b64Runes_facts _ (h _ (filenameRegexFind_dquote l n hf))).1)
  · cases he : encodingRegexMatch l with
    | false => rfl
    | true =>
      obtain ⟨c, hc, hfc⟩ := encodingRegexMatch_hyphen l he
      exact absurd hfc ((b64Runes_facts c (h c hc)).2.1)
  · cases hp : HasPrefix l "--".toList with
    | false => rfl
    | true => exact absurd rfl ((b64Runes_facts _ (h _ (HasPrefix_hyphen l hp))).2.2.1)

/-! ## The working directory -/

/-- A write, failed or not, leaves the meaning of every name as it was. -/
theorem afterWrite_resolve (files : FileMap) (name : GoString) (data : List Nat) :
    (afterWrite files name data).resolve = files.resolve := by
  unfold afterWrite WriteFile
  cases files.resolve name <;> rfl

/-- A failed write changes nothing. -/
theorem afterWrite_of_fail (files : FileMap) (name : GoString) (data : List Nat)
    (h : files.resolve name = none) : afterWrite files name data = files := by
  unfold afterWrite WriteFile
  rw [h]

/-- After a write that succeeds, every name of the written file reads the data. -/
theorem read_afterWrite_same (files : FileMap) (name m file : GoString) (data : List Nat)
    (hn : files.resolve name = some file) (hm : files.resolve m = some file) :
    (afterWrite files name data) m = some data := by
  show FileMap.read (afterWrite files name data) m = some data
  unfold FileMap.read
  rw [afterWrite_resolve, hm]
  unfold afterWrite WriteFile
  rw [hn]
  simp

/-- `saveAttachment` leaves the meaning of every name as it was. -/
theorem saveAttachment_resolve (files : FileMap) (filename : GoString)
    (b64Lines : List GoString) :
    (saveAttachment files filename b64Lines).resolve = files.resolve := by
  unfold saveAttachment
  split_ifs
  · rfl
  · cases DecodeString (Join b64Lines) with
    | none => rfl
    | some data => exact afterWrite_resolve files filename data

/-- So does an iteration of the scan. -/
theorem scanLine_resolve (st : ScanState) (l : GoString) :
    (scanLine st l).files.resolve = st.files.resolve := by
  unfold scanLine
  cases filenameRegexFind l with
  | some n => rfl
  | none =>
    simp only
    split_ifs
    · rfl
    · exact saveAttachment_resolve _ _ _
    · rfl
    · rfl

/-- So does the whole scan. -/
theorem scanLines_resolve (body : List GoString) (st : ScanState) :
    (scanLines st body).files.resolve = st.files.resolve := by
  induction body generalizing st with
  | nil => rfl
  | cons l body ih => exact (ih (scanLine st l)).trans (scanLine_resolve st l)

/-- Two names of one file: in the sample directory the attachment saved as `./a.txt`
replaces the one saved as `a.txt`, and a name in a missing subdirectory is not
written at all. -/
theorem emptyFiles_names :
    processAttachments emptyFiles
      ["filename=\"a.txt\"".toList, "Content-Transfer-Encoding: base64".toList,
       "aGVsbG8=".toList, "--b".toList,
       "filename=\"./a.txt\"".toList, "Content-Transfer-Encoding: base64".toList,
       "d29ybGQ=".toList, "--b".toList] "a.txt".toList = some [119, 111, 114, 108, 100] ∧
    (WriteFile emptyFiles "sub/a.txt".toList [104, 101, 108, 108, 111]).isNone = true ∧
    saveAttachment emptyFiles "sub/a.txt".toList ["aGVsbG8=".toList] = emptyFiles := by
  refine ⟨by decide, by decide, ?_⟩
  unfold saveAttachment
  rw [if_neg (by decide)]
  rfl

/-! ## Scanner lemmas -/

theorem saveAttachment_no_name (files : FileMap) (b64Lines : List GoString) :
    saveAttachment files [] b64Lines = files := by
  simp [saveAttachment]

theorem saveAttachment_bad (files : FileMap) (filename : GoString) (b64Lines : List GoString)
    (h : DecodeString (Join b64Lines) = none) :
    saveAttachment files filename b64Lines = files := by
  unfold saveAttachment
  split_ifs
  · rfl
  · rw [h]

theorem saveAttachment_ok (files : FileMap) (filename : GoString) (b64Lines : List GoString)
    (data : List Nat) (hn : filename ≠ []) (hl : b64Lines ≠ [])
    (h : DecodeString (Join b64Lines) = some data) :
    saveAttachment files filename b64Lines = afterWrite files filename data := by
  unfold saveAttachment
  rw [if_neg (by simp [hn, hl]), h]
  rfl

theorem scanLine_filename (st : ScanState) (l n : GoString)
    (h : filenameRegexFind l = some n) :
    scanLine st l = { st with filename := n } := by
  unfold scanLine
  rw [h]

theorem scanLine_encoding (st : ScanState) (l : GoString)
    (hf : filenameRegexFind l = none) (he : encodingRegexMatch l = true) :
    scanLine st l = { st with inAttachment := true, b64Lines := [] } := by
  unfold scanLine
  rw [hf]
  simp only
  rw [if_pos he]

theorem scanLine_content (st : ScanState) (l : GoString)
    (hf : filenameRegexFind l = none) (he : encodingRegexMatch l = false)
    (hin : st.inAttachment = true) (hp : HasPrefix l "--".toList = false) :
    scanLine st l = { st with b64Lines := st.b64Lines ++ [TrimSpace l] } := by
  unfold scanLine
  rw [hf]
  simp only
  rw [if_neg (by rw [he]; exact Bool.false_ne_true), if_pos hin,
    if_neg (by rw [hp]; exact Bool.false_ne_true)]

theorem scanLine_boundary (st : ScanState) (l : GoString)
    (hf : filenameRegexFind l = none) (he : encodingRegexMatch l = false)
    (hin : st.inAttachment = true) (hp : HasPrefix l "--".toList = true) :
    scanLine st l =
      { st with
        inAttachment := false
        files := saveAttachment st.files st.filename st.b64Lines
        b64Lines := st.b64Lines ++ [TrimSpace l] } := by
  unfold scanLine
  rw [hf]
  simp only
  rw [if_neg (by rw [he]; exact Bool.false_ne_true), if_pos hin, if_pos hp]

theorem scanLine_outside (st : ScanState) (l : GoString)
    (hf : filenameRegexFind l = none) (he : encodingRegexMatch l = false)
    (hin : st.inAttachment = false) :
    scanLine st l = st := by
  unfold scanLine
  rw [hf]
  simp only
  rw [if_neg (by rw [he]; exact Bool.false_ne_true),
    if_neg (by rw [hin]; exact Bool.false_ne_true)]

theorem scanLines_cons (st : ScanState) (l : GoString) (body : List GoString) :
    scanLines st (l :: body) = scanLines (scanLine st l) body := rfl

theorem scanLines_append (st : ScanState) (b1 b2 : List GoString) :
    scanLines st (b1 ++ b2) = scanLines (scanLines st b1) b2 := by
  unfold scanLines
  rw [List.foldl_append]

theorem scanLines_content (content : List GoString) (st : ScanState)
    (hin : st.inAttachment = true) (h : ∀ l ∈ content, ∀ c ∈ l, c ∈ b64Runes) :
    scanLines st content = { st with b64Lines := st.b64Lines ++ content.map TrimSpace } := by
  induction content generalizing st with
  | nil => simp [scanLines]
  | cons l content ih =>
    have hl := content_line_plain l (h l (List.mem_cons_self l content))
    rw [scanLines_cons, scanLine_content st l hl.1 hl.2.1 hin hl.2.2,
      ih { st with b64Lines := st.b64Lines ++ [TrimSpace l] } hin
        (fun x hx => h x (List.mem_cons_of_mem l hx))]
    simp

theorem Join_runes (content : List GoString) (data : List Nat)
    (h : DecodeString (Join content) = some data) :
    ∀ l ∈ content, ∀ c ∈ l, c ∈ b64Runes := by
  intro l hl c hc
  exact DecodeString_runes _ data h c (List.mem_flatten.mpr ⟨l, hl, hc⟩)

theorem processAttachments_section (files : FileMap) (name fnLine encLine boundary : GoString)
    (content : List GoString) (data : List Nat)
    (hfn : filenameRegexFind fnLine = some name)
    (hef : filenameRegexFind encLine = none) (hee : encodingRegexMatch encLine = true)
    (hn : content ≠ []) (hdec : DecodeString (Join content) = some data)
    (hbp : HasPrefix boundary "--".toList = true)
    (hbf : filenameRegexFind boundary = none) (hbe : encodingRegexMatch boundary = false) :
    processAttachments files (fnLine :: encLine :: (content ++ [boundary])) =
      afterWrite files name data := by
  have hruns := Join_runes content data hdec
  unfold processAttachments
  simp only
  rw [scanLines_cons, scanLines_cons, scanLines_append, scanLine_filename _ _ _ hfn,
    scanLine_encoding _ _ hef hee, scanLines_content content _ rfl hruns,
    scanLines_cons, scanLine_boundary _ _ hbf hbe rfl hbp]
  simp only [scanLines, List.foldl_nil, ScanState.init, List.nil_append]
  rw [if_neg (by simp)]
  apply saveAttachment_ok
  · exact filenameRegexFind_ne_nil _ _ hfn
  · simpa using hn
  · rw [DecodeString_Join_TrimSpace content hruns, hdec]

theorem scanLine_no_name (st : ScanState) (l : GoString)
    (hf : filenameRegexFind l = none) (hn : st.filename = []) :
    (scanLine st l).filename = [] ∧ (scanLine st l).files = st.files := by
  unfold scanLine
  rw [hf]
  simp only
  split_ifs
  · exact ⟨hn, rfl⟩
  · refine ⟨hn, ?_⟩
    simp only [hn]
    exact saveAttachment_no_name _ _
  · exact ⟨hn, rfl⟩
  · exact ⟨hn, rfl⟩

theorem scanLines_no_name (body : List GoString) (st : ScanState)
    (h : ∀ l ∈ body, filenameRegexFind l = none) (hn : st.filename = []) :
    (scanLines st body).filename = [] ∧ (scanLines st body).files = st.files := by
  induction body generalizing st with
  | nil => exact ⟨hn, rfl⟩
  | cons l body ih =>
    have h1 := scanLine_no_name st l (h l (List.mem_cons_self l body)) hn
    have h2 := ih (scanLine st l) (fun x hx => h x (List.mem_cons_of_mem l hx)) h1.1
    rw [scanLines_cons]
    exact ⟨h2.1, h2.2.trans h1.2⟩

/-- An encoding marker and decodable content, from any scan state. -/
theorem scanLines_open_section (st : ScanState) (encLine : GoString)
    (content : List GoString) (data : List Nat)
    (hef : filenameRegexFind encLine = none) (hee : encodingRegexMatch encLine = true)
    (hdec : DecodeString (Join content) = some data) :
    scanLines st (encLine :: content) =
      { st with inAttachment := true, b64Lines := content.map TrimSpace } := by
  rw [scanLines_cons, scanLine_encoding st encLine hef hee,
    scanLines_content content _ rfl (Join_runes content data hdec)]
  simp

/-- A whole section from any scan state that holds a filename: the content is written
under that filename. -/
theorem scanLines_closed_section (st : ScanState) (encLine boundary : GoString)
    (content : List GoString) (data : List Nat)
    (hname : st.filename ≠ [])
    (hef : filenameRegexFind encLine = none) (hee : encodingRegexMatch encLine = true)
    (hn : content ≠ []) (hdec : DecodeString (Join content) = some data)
    (hbp : HasPrefix boundary "--".toList = true)
    (hbf : filenameRegexFind boundary = none) (hbe : encodingRegexMatch boundary = false) :
    scanLines st (encLine :: (content ++ [boundary])) =
      { st with
        inAttachment := false
        b64Lines := content.map TrimSpace ++ [TrimSpace boundary]
        files := afterWrite st.files st.filename data } := by
  have hruns := Join_runes content data hdec
  rw [← List.cons_append, scanLines_append,
    scanLines_open_section st encLine content data hef hee hdec, scanLines_cons,
    scanLine_boundary _ _ hbf hbe rfl hbp]
  simp only [scanLines, List.foldl_nil]
  rw [saveAttachment_ok st.files st.filename (content.map TrimSpace) data hname
    (by simpa using hn) (by rw [DecodeString_Join_TrimSpace content hruns, hdec])]

/-- Only a filename marker changes the filename. -/
theorem scanLine_keeps_name (st : ScanState) (l : GoString) :
    (scanLine st l).filename = (filenameRegexFind l).getD st.filename := by
  unfold scanLine
  cases filenameRegexFind l with
  | some n => rfl
  | none =>
    simp only [Option.getD_none]
    split_ifs <;> rfl

/-- Two sections behind one filename marker: the second overwrites the first. -/
theorem processAttachments_two_sections (files : FileMap)
    (name fnLine enc1 b1 enc2 b2 : GoString) (c1 c2 : List GoString) (d1 d2 : List Nat)
    (hfn : filenameRegexFind fnLine = some name)
    (hef1 : filenameRegexFind enc1 = none) (hee1 : encodingRegexMatch enc1 = true)
    (hn1 : c1 ≠ []) (hdec1 : DecodeString (Join c1) = some d1)
    (hbp1 : HasPrefix b1 "--".toList = true)
    (hbf1 : filenameRegexFind b1 = none) (hbe1 : encodingRegexMatch b1 = false)
    (hef2 : filenameRegexFind enc2 = none) (hee2 : encodingRegexMatch enc2 = true)
    (hn2 : c2 ≠ []) (hdec2 : DecodeString (Join c2) = some d2)
    (hbp2 : HasPrefix b2 "--".toList = true)
    (hbf2 : filenameRegexFind b2 = none) (hbe2 : encodingRegexMatch b2 = false) :
    processAttachments files
        (fnLine :: (enc1 :: (c1 ++ [b1]) ++ enc2 :: (c2 ++ [b2]))) =
      afterWrite (afterWrite files name d1) name d2 := by
  have hname := filenameRegexFind_ne_nil _ _ hfn
  unfold processAttachments
  simp only
  rw [scanLines_cons, scanLines_append, scanLine_filename _ _ _ hfn,
    scanLines_closed_section _ enc1 b1 c1 d1 hname hef1 hee1 hn1 hdec1 hbp1 hbf1 hbe1,
    scanLines_closed_section _ enc2 b2 c2 d2 hname hef2 hee2 hn2 hdec2 hbp2 hbf2 hbe2]
  simp [ScanState.init]

/-! ## The calls of saveAttachment -/

theorem scanCalls_append (st : ScanState) (b1 b2 : List GoString) :
    scanCalls st (b1 ++ b2) = scanCalls st b1 ++ scanCalls (scanLines st b1) b2 := by
  induction b1 generalizing st with
  | nil => rfl
  | cons l b1 ih =>
    rw [List.cons_append, scanCalls, scanCalls, ih, scanLines_cons, List.append_assoc]

/-- The file effect of one iteration is the call it makes, if any. -/
theorem scanLine_files (st : ScanState) (l : GoString) :
    (scanLine st l).files =
      (if closesSection st l then [(st.filename, st.b64Lines)] else []).foldl
        (fun f c => saveAttachment f c.1 c.2) st.files := by
  unfold scanLine closesSection
  cases hf : filenameRegexFind l with
  | some n => simp
  | none =>
    cases he : encodingRegexMatch l with
    | true => simp
    | false =>
      cases hin : st.inAttachment with
      | false => simp
      | true =>
        cases hp : HasPrefix l "--".toList with
        | false => simp [hp]
        | true => simp [hp]

theorem scanLines_files (body : List GoString) (st : ScanState) :
    (scanLines st body).files =
      (scanCalls st body).foldl (fun f c => saveAttachment f c.1 c.2) st.files := by
  induction body generalizing st with
  | nil => rfl
  | cons l body ih =>
    rw [scanLines_cons, ih, scanCalls, List.foldl_append, scanLine_files]

theorem processAttachments_calls (files : FileMap) (body : List GoString) :
    processAttachments files body =
      (saveCalls files body).foldl (fun f c => saveAttachment f c.1 c.2) files := by
  have h : (scanLines (ScanState.init files) body).files =
      (scanCalls (ScanState.init files) body).foldl (fun f c => saveAttachment f c.1 c.2)
        files := scanLines_files body (ScanState.init files)
  unfold processAttachments saveCalls
  simp only
  rw [List.foldl_append, ← h]
  split_ifs <;> rfl

/-- The counting invariant: a call needs an open section, and only an encoding
marker opens one. -/
theorem scanCalls_count (body : List GoString) (st : ScanState) :
    (scanCalls st body).length + (if (scanLines st body).inAttachment then 1 else 0) ≤
      (if st.inAttachment then 1 else 0) + (body.filter isEncodingMarker).length := by
  induction body generalizing st with
  | nil => simp [scanCalls, scanLines]
  | cons l body ih =>
    have h := ih (scanLine st l)
    rw [scanLines_cons, scanCalls, List.length_append]
    have key : (if closesSection st l then [(st.filename, st.b64Lines)] else []).length +
        (if (scanLine st l).inAttachment then 1 else 0) ≤
        (if st.inAttachment then 1 else 0) + (if isEncodingMarker l then 1 else 0) := by
      unfold scanLine closesSection isEncodingMarker
      cases hf : filenameRegexFind l with
      | some n => simp
      | none =>
        cases he : encodingRegexMatch l with
        | true => simp
        | false =>
          cases hin : st.inAttachment with
          | false => simp [hin]
          | true =>
            cases hp : HasPrefix l "--".toList with
            | false => simp [hp, hin]
            | true => simp [hp]
    have hfl : ((l :: body).filter isEncodingMarker).length =
        (if isEncodingMarker l then 1 else 0) + (body.filter isEncodingMarker).length := by
      rw [List.filter_cons]
      split_ifs <;> simp [Nat.add_comm]
    rw [hfl]
    omega

theorem saveCalls_count (files : FileMap) (body : List GoString) :
    (saveCalls files body).length ≤ (body.filter isEncodingMarker).length := by
  have h : (scanCalls (ScanState.init files) body).length +
      (if (scanLines (ScanState.init files) body).inAttachment then 1 else 0) ≤
      0 + (body.filter isEncodingMarker).length := scanCalls_count body (ScanState.init files)
  unfold saveCalls
  rw [List.length_append]
  by_cases hc : (scanLines (ScanState.init files) body).inAttachment = true ∧
      (scanLines (ScanState.init files) body).filename ≠ []
  · rw [if_pos hc]
    rw [if_pos hc.1] at h
    simp only [List.length_singleton]
    omega
  · rw [if_neg hc]
    simp only [List.length_nil]
    split_ifs at h <;> omega

/-! ## The accumulator and the specification of the encoded lines -/

theorem specEncodedLines_marker (xs : List GoString) (x : GoString)
    (h : isEncodingMarker x = true) : specEncodedLines (xs ++ [x]) = [] := by
  simp [specEncodedLines, List.takeWhile_cons, h]

theorem specEncodedLines_snoc (xs : List GoString) (x : GoString)
    (h : isEncodingMarker x = false) :
    specEncodedLines (xs ++ [x]) =
      specEncodedLines xs ++ (if (filenameRegexFind x).isNone then [TrimSpace x] else []) := by
  simp only [specEncodedLines, List.reverse_append, List.reverse_cons, List.reverse_nil,
    List.nil_append, List.singleton_append, List.takeWhile_cons, h, Bool.not_false, if_true,
    List.filter_append, List.map_append]
  congr 1
  cases hf : filenameRegexFind x <;> simp [List.filter, hf]

/-- Lines before the last encoding marker do not count. -/
theorem specEncodedLines_reset (pre mid : List GoString) (enc : GoString)
    (h : isEncodingMarker enc = true) :
    specEncodedLines (pre ++ enc :: mid) = specEncodedLines (enc :: mid) := by
  induction mid using List.reverseRecOn with
  | nil =>
    rw [specEncodedLines_marker pre enc h]
    exact (specEncodedLines_marker [] enc h).symm
  | append_singleton mid x ih =>
    have e1 : pre ++ enc :: (mid ++ [x]) = (pre ++ enc :: mid) ++ [x] := by simp
    have e2 : enc :: (mid ++ [x]) = (enc :: mid) ++ [x] := by simp
    rw [e1, e2]
    cases hx : isEncodingMarker x with
    | true => rw [specEncodedLines_marker _ x hx, specEncodedLines_marker _ x hx]
    | false => rw [specEncodedLines_snoc _ x hx, specEncodedLines_snoc _ x hx, ih]

theorem scanLines_snoc (st : ScanState) (xs : List GoString) (x : GoString) :
    scanLines st (xs ++ [x]) = scanLine (scanLines st xs) x := by
  rw [scanLines_append]
  rfl

/-- The accumulator of an open section is what the specification describes. -/
theorem scanLines_spec (files : FileMap) (before : List GoString)
    (hin : (scanLines (ScanState.init files) before).inAttachment = true) :
    (scanLines (ScanState.init files) before).b64Lines = specEncodedLines before := by
  induction before using List.reverseRecOn with
  | nil => exact absurd hin (by simp [scanLines, ScanState.init])
  | append_singleton xs x ih =>
    rw [scanLines_snoc] at hin ⊢
    cases hf : filenameRegexFind x with
    | some n =>
      rw [scanLine_filename _ _ _ hf] at hin ⊢
      have hm : isEncodingMarker x = false := by simp [isEncodingMarker, hf]
      rw [specEncodedLines_snoc xs x hm, hf]
      simpa using ih hin
    | none =>
      cases he : encodingRegexMatch x with
      | true =>
        rw [scanLine_encoding _ _ hf he]
        rw [specEncodedLines_marker xs x (by simp [isEncodingMarker, hf, he])]
      | false =>
        have hm : isEncodingMarker x = false := by simp [isEncodingMarker, hf, he]
        cases hprev : (scanLines (ScanState.init files) xs).inAttachment with
        | false =>
          rw [scanLine_outside _ _ hf he hprev] at hin
          rw [hprev] at hin
          exact absurd hin Bool.false_ne_true
        | true =>
          cases hp : HasPrefix x "--".toList with
          | true =>
            rw [scanLine_boundary _ _ hf he hprev hp] at hin
            exact absurd hin Bool.false_ne_true
          | false =>
            rw [scanLine_content _ _ hf he hprev hp, specEncodedLines_snoc xs x hm, hf,
              ih hprev]
            simp

/-! ## White space: trailing blanks and blank lines -/

theorem isSpace_mem (c : Char) (h : isSpace c = true) : c ∈ spaceRunes := by
  unfold isSpace at h
  simp only [Bool.or_eq_true, Bool.and_eq_true, decide_eq_true_eq, beq_iff_eq] at h
  have hc := rune_of_toNat c c.toNat rfl
  generalize c.toNat = n at h hc
  subst hc
  rcases h with ((((((((((⟨h1, h2⟩ | h) | h) | h) | h) | ⟨h1, h2⟩) | h) | h) | h) | h) | h)
  · interval_cases n <;> decide
  · subst h; decide
  · subst h; decide
  · subst h; decide
  · subst h; decide
  · interval_cases n <;> decide
  · subst h; decide
  · subst h; decide
  · subst h; decide
  · subst h; decide
  · subst h; decide

theorem spaceRunes_facts : ∀ c ∈ spaceRunes,
    c ≠ dquote ∧ c ≠ Char.ofNat 45 ∧ (∀ p ∈ filenameLit, p ≠ c) ∧
      (∀ p ∈ "Content-Transfer-Encoding:".toList, foldRune p ≠ foldRune c) ∧
      (∀ p ∈ "base64".toList, foldRune p ≠ foldRune c) := by
  decide

/-- A literal with no rune of `ws` in it is found in `s ++ ws` exactly where it is
found in `s`. -/
theorem stripLit_append (lit s ws : GoString) (h : ∀ p ∈ lit, ∀ c ∈ ws, p ≠ c) :
    stripLit lit (s ++ ws) = (stripLit lit s).map (· ++ ws) := by
  induction lit generalizing s with
  | nil => simp [stripLit]
  | cons p ps ih =>
    cases s with
    | nil =>
      cases ws with
      | nil => simp [stripLit]
      | cons c cs =>
        simp [stripLit, h p (List.mem_cons_self p ps) c (List.mem_cons_self c cs)]
    | cons a as =>
      rw [List.cons_append, stripLit, stripLit]
      split_ifs
      · exact ih as (fun q hq => h q (List.mem_cons_of_mem p hq))
      · rfl

theorem stripLitFold_append (lit s ws : GoString)
    (h : ∀ p ∈ lit, ∀ c ∈ ws, foldRune p ≠ foldRune c) :
    stripLitFold lit (s ++ ws) = (stripLitFold lit s).map (· ++ ws) := by
  induction lit generalizing s with
  | nil => simp [stripLitFold]
  | cons p ps ih =>
    cases s with
    | nil =>
      cases ws with
      | nil => simp [stripLitFold]
      | cons c cs =>
        simp [stripLitFold, h p (List.mem_cons_self p ps) c (List.mem_cons_self c cs)]
    | cons a as =>
      rw [List.cons_append, stripLitFold, stripLitFold]
      split_ifs
      · exact ih as (fun q hq => h q (List.mem_cons_of_mem p hq))
      · rfl

theorem dropWhile_append_of_all (p : Char → Bool) (a b : List Char)
    (h : ∀ c ∈ a, p c = true) : (a ++ b).dropWhile p = b.dropWhile p := by
  induction a with
  | nil => rfl
  | cons x a ih =>
    rw [List.cons_append, List.dropWhile_cons_of_pos (h x (List.mem_cons_self x a)),
      ih (fun c hc => h c (List.mem_cons_of_mem x hc))]

theorem dropWhile_eq_nil_of_all (p : Char → Bool) (a : List Char)
    (h : ∀ c ∈ a, p c = true) : a.dropWhile p = [] := by
  have := dropWhile_append_of_all p a [] h
  simpa using this

theorem dropWhile_append_of_ne_nil (p : Char → Bool) (a b : List Char)
    (h : a.dropWhile p ≠ []) : (a ++ b).dropWhile p = a.dropWhile p ++ b := by
  induction a with
  | nil => exact absurd rfl h
  | cons x a ih =>
    by_cases hx : p x = true
    · rw [List.cons_append, List.dropWhile_cons_of_pos hx, List.dropWhile_cons_of_pos hx]
      rw [List.dropWhile_cons_of_pos hx] at h
      exact ih h
    · rw [List.cons_append, List.dropWhile_cons_of_neg hx, List.dropWhile_cons_of_neg hx]
      rfl

theorem takeWhile_append_of_ne_nil (p : Char → Bool) (a b : List Char)
    (h : a.dropWhile p ≠ []) : (a ++ b).takeWhile p = a.takeWhile p := by
  induction a with
  | nil => exact absurd rfl h
  | cons x a ih =>
    by_cases hx : p x = true
    · rw [List.cons_append, List.takeWhile_cons_of_pos hx, List.takeWhile_cons_of_pos hx]
      rw [List.dropWhile_cons_of_pos hx] at h
      rw [ih h]
    · rw [List.cons_append, List.takeWhile_cons_of_neg hx, List.takeWhile_cons_of_neg hx]

theorem TrimSpace_append (l ws : GoString) (h : ∀ c ∈ ws, isSpace c = true) :
    TrimSpace (l ++ ws) = TrimSpace l := by
  unfold TrimSpace
  by_cases hl : l.dropWhile isSpace = []
  · have hall : ∀ c ∈ l, isSpace c = true := by
      intro c hc
      by_contra hcs
      have : c ∈ l.dropWhile isSpace := by
        have h1 := List.takeWhile_append_dropWhile isSpace l
        rw [← h1] at hc
        rcases List.mem_append.mp hc with hc | hc
        · exact absurd (List.mem_takeWhile_imp hc) hcs
        · exact hc
      rw [hl] at this
      exact absurd this (List.not_mem_nil c)
    rw [dropWhile_append_of_all _ l ws hall, dropWhile_eq_nil_of_all _ ws h, hl]
  · rw [dropWhile_append_of_ne_nil _ l ws hl, List.reverse_append,
      dropWhile_append_of_all _ ws.reverse _ (fun c hc => h c (List.mem_reverse.mp hc))]

theorem space_facts (ws : GoString) (h : ∀ c ∈ ws, isSpace c = true) (c : Char)
    (hc : c ∈ ws) :
    c ≠ dquote ∧ c ≠ Char.ofNat 45 ∧ (∀ p ∈ filenameLit, p ≠ c) ∧
      (∀ p ∈ "Content-Transfer-Encoding:".toList, foldRune p ≠ foldRune c) ∧
      (∀ p ∈ "base64".toList, foldRune p ≠ foldRune c) :=
  spaceRunes_facts c (isSpace_mem c (h c hc))

theorem filenameAt_append (s ws : GoString) (h : ∀ c ∈ ws, isSpace c = true) :
    filenameAt (s ++ ws) = filenameAt s := by
  unfold filenameAt
  rw [stripLit_append filenameLit s ws (fun p hp c hc => (space_facts ws h c hc).2.2.1 p hp)]
  cases stripLit filenameLit s with
  | none => rfl
  | some rest =>
    simp only [Option.map_some']
    have hws : ∀ c ∈ ws, (fun c => c != dquote) c = true := by
      intro c hc
      simpa using (space_facts ws h c hc).1
    by_cases hr : rest.dropWhile (fun c => c != dquote) = []
    · have hall : ∀ c ∈ rest, (fun c => c != dquote) c = true := by
        intro c hc
        by_contra hcs
        have : c ∈ rest.dropWhile (fun c => c != dquote) := by
          have h1 := List.takeWhile_append_dropWhile (fun c => c != dquote) rest
          rw [← h1] at hc
          rcases List.mem_append.mp hc with hc | hc
          · exact absurd (List.mem_takeWhile_imp hc) hcs
          · exact hc
        rw [hr] at this
        exact absurd this (List.not_mem_nil c)
      rw [dropWhile_append_of_all _ rest ws hall, dropWhile_eq_nil_of_all _ ws hws, hr]
    · rw [dropWhile_append_of_ne_nil _ rest ws hr, takeWhile_append_of_ne_nil _ rest ws hr]
      cases hd : rest.dropWhile (fun c => c != dquote) with
      | nil => exact absurd hd hr
      | cons x xs => rfl

theorem filenameRegexFind_space (ws : GoString) (h : ∀ c ∈ ws, isSpace c = true) :
    filenameRegexFind ws = none := by
  induction ws with
  | nil => rfl
  | cons c cs ih =>
    have h0 : filenameAt (c :: cs) = none := by
      have := filenameAt_append [] (c :: cs) h
      rw [List.nil_append] at this
      rw [this]
      rfl
    rw [filenameRegexFind, h0]
    exact ih (fun x hx => h x (List.mem_cons_of_mem c hx))

theorem filenameRegexFind_append (l ws : GoString) (h : ∀ c ∈ ws, isSpace c = true) :
    filenameRegexFind (l ++ ws) = filenameRegexFind l := by
  induction l with
  | nil => rw [List.nil_append, filenameRegexFind_space ws h]; rfl
  | cons c cs ih =>
    rw [List.cons_append, filenameRegexFind, filenameRegexFind, ← List.cons_append,
      filenameAt_append (c :: cs) ws h, ih]

theorem space_not_reSpace_lit (ws : GoString) (h : ∀ c ∈ ws, isSpace c = true) :
    stripLitFold "base64".toList ws = none := by
  have := stripLitFold_append "base64".toList [] ws
    (fun p hp c hc => (space_facts ws h c hc).2.2.2.2 p hp)
  rw [List.nil_append] at this
  rw [this]
  rfl

theorem isReSpace_isSpace (c : Char) (h : isReSpace c = true) : isSpace c = true := by
  unfold isReSpace at h
  unfold isSpace
  simp only [Bool.or_eq_true, beq_iff_eq] at h
  simp only [Bool.or_eq_true, Bool.and_eq_true, decide_eq_true_eq, beq_iff_eq]
  omega

theorem encodingAt_append (s ws : GoString) (h : ∀ c ∈ ws, isSpace c = true) :
    encodingAt (s ++ ws) = encodingAt s := by
  unfold encodingAt
  rw [stripLitFold_append _ s ws (fun p hp c hc => (space_facts ws h c hc).2.2.2.1 p hp)]
  cases stripLitFold "Content-Transfer-Encoding:".toList s with
  | none => rfl
  | some rest =>
    simp only [Option.map_some']
    by_cases hr : rest.dropWhile isReSpace = []
    · have hall : ∀ c ∈ rest, isReSpace c = true := by
        intro c hc
        by_contra hcs
        have : c ∈ rest.dropWhile isReSpace := by
          have h1 := List.takeWhile_append_dropWhile isReSpace rest
          rw [← h1] at hc
          rcases List.mem_append.mp hc with hc | hc
          · exact absurd (List.mem_takeWhile_imp hc) hcs
          · exact hc
        rw [hr] at this
        exact absurd this (List.not_mem_nil c)
      rw [dropWhile_append_of_all _ rest ws hall, hr,
        space_not_reSpace_lit _ (fun c hc => h c ((List.dropWhile_sublist _).subset hc))]
      rfl
    · rw [dropWhile_append_of_ne_nil _ rest ws hr,
        stripLitFold_append _ _ ws (fun p hp c hc => (space_facts ws h c hc).2.2.2.2 p hp)]
      cases stripLitFold "base64".toList (rest.dropWhile isReSpace) <;> rfl

theorem encodingRegexMatch_space (ws : GoString) (h : ∀ c ∈ ws, isSpace c = true) :
    encodingRegexMatch ws = false := by
  induction ws with
  | nil => rfl
  | cons c cs ih =>
    have h0 : encodingAt (c :: cs) = false := by
      have := encodingAt_append [] (c :: cs) h
      rw [List.nil_append] at this
      rw [this]
      rfl
    rw [encodingRegexMatch, h0, ih (fun x hx => h x (List.mem_cons_of_mem c hx))]
    rfl

theorem encodingRegexMatch_append (l ws : GoString) (h : ∀ c ∈ ws, isSpace c = true) :
    encodingRegexMatch (l ++ ws) = encodingRegexMatch l := by
  induction l with
  | nil => rw [List.nil_append, encodingRegexMatch_space ws h]; rfl
  | cons c cs ih =>
    rw [List.cons_append, encodingRegexMatch, encodingRegexMatch, ← List.cons_append,
      encodingAt_append (c :: cs) ws h, ih]

theorem HasPrefix_append (l ws : GoString) (h : ∀ c ∈ ws, isSpace c = true) :
    HasPrefix (l ++ ws) "--".toList = HasPrefix l "--".toList := by
  have hne : ∀ c ∈ ws, (Char.ofNat 45 == c) = false := by
    intro c hc
    simpa using ((space_facts ws h c hc).2.1).symm
  have hlit : "--".toList = [Char.ofNat 45, Char.ofNat 45] := by decide
  unfold HasPrefix
  rw [hlit]
  match l, ws, hne with
  | [], [], _ => rfl
  | [], c :: cs, hne =>
    simp [List.isPrefixOf, hne c (List.mem_cons_self c cs)]
  | [a], [], _ => rfl
  | [a], c :: cs, hne =>
    simp [List.isPrefixOf, hne c (List.mem_cons_self c cs)]
  | a :: b :: t, ws, _ => simp [List.isPrefixOf]

/-- Trailing white space changes nothing in an iteration of the loop. -/
theorem scanLine_append_space (st : ScanState) (l ws : GoString)
    (h : ∀ c ∈ ws, isSpace c = true) : scanLine st (l ++ ws) = scanLine st l := by
  unfold scanLine
  rw [filenameRegexFind_append l ws h, encodingRegexMatch_append l ws h,
    HasPrefix_append l ws h, TrimSpace_append l ws h]

/-- A blank line in an open section is accumulated as an empty string. -/
theorem scanLine_blank (st : ScanState) (w : GoString) (h : ∀ c ∈ w, isSpace c = true)
    (hin : st.inAttachment = true) :
    scanLine st w = { st with b64Lines := st.b64Lines ++ [[]] } := by
  have e := scanLine_append_space st [] w h
  rw [List.nil_append] at e
  rw [e]
  have hc := scanLine_content st [] rfl rfl hin rfl
  rw [hc]
  rfl

/-- What `saveAttachment` does depends on the lines through their concatenation and
on whether there are any. -/
theorem saveAttachment_congr (files : FileMap) (name : GoString) (l1 l2 : List GoString)
    (hj : Join l1 = Join l2) (he : l1 = [] ↔ l2 = []) :
    saveAttachment files name l1 = saveAttachment files name l2 := by
  unfold saveAttachment
  rw [hj]
  have : (name = [] ∨ l1.length = 0) ↔ (name = [] ∨ l2.length = 0) := by
    simp only [List.length_eq_zero]
    rw [he]
  by_cases hc : name = [] ∨ l1.length = 0
  · rw [if_pos hc, if_pos (this.mp hc)]
  · rw [if_neg hc, if_neg (fun h => hc (this.mpr h))]

theorem Join_append (a b : List GoString) : Join (a ++ b) = Join a ++ Join b := by
  simp [Join]

/-- Two scans whose accumulators have the same concatenation and are empty together
stay so, line by line, and write the same files. -/
theorem scanLine_congr (st1 st2 : ScanState) (l : GoString)
    (hn : st1.filename = st2.filename) (hi : st1.inAttachment = st2.inAttachment)
    (hf : st1.files = st2.files) (hj : Join st1.b64Lines = Join st2.b64Lines)
    (he : st1.b64Lines = [] ↔ st2.b64Lines = []) :
    (scanLine st1 l).filename = (scanLine st2 l).filename ∧
      (scanLine st1 l).inAttachment = (scanLine st2 l).inAttachment ∧
      (scanLine st1 l).files = (scanLine st2 l).files ∧
      Join (scanLine st1 l).b64Lines = Join (scanLine st2 l).b64Lines ∧
      ((scanLine st1 l).b64Lines = [] ↔ (scanLine st2 l).b64Lines = []) := by
  cases hfl : filenameRegexFind l with
  | some n =>
    rw [scanLine_filename st1 l n hfl, scanLine_filename st2 l n hfl]
    exact ⟨rfl, hi, hf, hj, he⟩
  | none =>
    cases hel : encodingRegexMatch l with
    | true =>
      rw [scanLine_encoding st1 l hfl hel, scanLine_encoding st2 l hfl hel]
      exact ⟨hn, rfl, hf, rfl, Iff.rfl⟩
    | false =>
      cases hin : st1.inAttachment with
      | false =>
        rw [scanLine_outside st1 l hfl hel hin, scanLine_outside st2 l hfl hel (hi ▸ hin)]
        exact ⟨hn, hi, hf, hj, he⟩
      | true =>
        have hin2 : st2.inAttachment = true := hi ▸ hin
        cases hp : HasPrefix l "--".toList with
        | true =>
          rw [scanLine_boundary st1 l hfl hel hin hp, scanLine_boundary st2 l hfl hel hin2 hp]
          refine ⟨hn, rfl, ?_, ?_, ?_⟩
          · simp only
            rw [hf, hn]
            exact saveAttachment_congr _ _ _ _ hj he
          · simp only
            rw [Join_append, Join_append, hj]
          · simp
        | false =>
          rw [scanLine_content st1 l hfl hel hin hp, scanLine_content st2 l hfl hel hin2 hp]
          refine ⟨hn, hi, hf, ?_, ?_⟩
          · simp only
            rw [Join_append, Join_append, hj]
          · simp

theorem scanLines_congr (body : List GoString) (st1 st2 : ScanState)
    (hn : st1.filename = st2.filename) (hi : st1.inAttachment = st2.inAttachment)
    (hf : st1.files = st2.files) (hj : Join st1.b64Lines = Join st2.b64Lines)
    (he : st1.b64Lines = [] ↔ st2.b64Lines = []) :
    (scanLines st1 body).filename = (scanLines st2 body).filename ∧
      (scanLines st1 body).inAttachment = (scanLines st2 body).inAttachment ∧
      (scanLines st1 body).files = (scanLines st2 body).files ∧
      Join (scanLines st1 body).b64Lines = Join (scanLines st2 body).b64Lines ∧
      ((scanLines st1 body).b64Lines = [] ↔ (scanLines st2 body).b64Lines = []) := by
  induction body generalizing st1 st2 with
  | nil => exact ⟨hn, hi, hf, hj, he⟩
  | cons l body ih =>
    obtain ⟨a, b, c, d, e⟩ := scanLine_congr st1 st2 l hn hi hf hj he
    rw [scanLines_cons, scanLines_cons]
    exact ih _ _ a b c d e

/-- The end of `processAttachments` from two such scans. -/
theorem finish_congr (st1 st2 : ScanState)
    (hn : st1.filename = st2.filename) (hi : st1.inAttachment = st2.inAttachment)
    (hf : st1.files = st2.files) (hj : Join st1.b64Lines = Join st2.b64Lines)
    (he : st1.b64Lines = [] ↔ st2.b64Lines = []) :
    (if st1.inAttachment ∧ st1.filename ≠ [] then
        saveAttachment st1.files st1.filename st1.b64Lines else st1.files) =
      (if st2.inAttachment ∧ st2.filename ≠ [] then
        saveAttachment st2.files st2.filename st2.b64Lines else st2.files) := by
  rw [hn, hi, hf, saveAttachment_congr st2.files st2.filename _ _ hj he]

/-- A blank line put into an open section that already holds a line. -/
theorem processAttachments_blank_after (files : FileMap) (pre post : List GoString)
    (w : GoString) (hw : ∀ c ∈ w, isSpace c = true)
    (hin : (scanLines (ScanState.init files) pre).inAttachment = true)
    (hne : (scanLines (ScanState.init files) pre).b64Lines ≠ []) :
    processAttachments files (pre ++ w :: post) = processAttachments files (pre ++ post) := by
  unfold processAttachments
  simp only
  rw [scanLines_append, scanLines_append, scanLines_cons, scanLine_blank _ w hw hin]
  obtain ⟨a, b, c, d, e⟩ := scanLines_congr post
    { scanLines (ScanState.init files) pre with
      b64Lines := (scanLines (ScanState.init files) pre).b64Lines ++ [[]] }
    (scanLines (ScanState.init files) pre) rfl rfl rfl (by simp [Join]) (by simp [hne])
  exact finish_congr _ _ a b c d e

/-- A blank line put right before a content line of an open section. -/
theorem processAttachments_blank_before (files : FileMap) (pre post : List GoString)
    (w c : GoString) (hw : ∀ x ∈ w, isSpace x = true)
    (hin : (scanLines (ScanState.init files) pre).inAttachment = true)
    (hcf : filenameRegexFind c = none) (hce : encodingRegexMatch c = false)
    (hcp : HasPrefix c "--".toList = false) :
    processAttachments files (pre ++ w :: c :: post) =
      processAttachments files (pre ++ c :: post) := by
  unfold processAttachments
  simp only
  rw [scanLines_append, scanLines_append, scanLines_cons, scanLines_cons, scanLines_cons,
    scanLine_blank _ w hw hin, scanLine_content (scanLines (ScanState.init files) pre) c hcf hce
      hin hcp,
    scanLine_content { scanLines (ScanState.init files) pre with
      b64Lines := (scanLines (ScanState.init files) pre).b64Lines ++ [[]] } c hcf hce hin hcp]
  obtain ⟨a, b, c', d, e⟩ := scanLines_congr post
    { scanLines (ScanState.init files) pre with
      b64Lines := (scanLines (ScanState.init files) pre).b64Lines ++ [[]] ++ [TrimSpace c] }
    { scanLines (ScanState.init files) pre with
      b64Lines := (scanLines (ScanState.init files) pre).b64Lines ++ [TrimSpace c] }
    rfl rfl rfl (by simp [Join]) (by simp)
  exact finish_congr _ _ a b c' d e

/-- Trailing white space on any line of a body. -/
theorem processAttachments_trailing (files : FileMap) (pre post : List GoString)
    (l ws : GoString) (hws : ∀ c ∈ ws, isSpace c = true) :
    processAttachments files (pre ++ (l ++ ws) :: post) =
      processAttachments files (pre ++ l :: post) := by
  unfold processAttachments
  simp only
  rw [scanLines_append, scanLines_append, scanLines_cons, scanLines_cons,
    scanLine_append_space _ l ws hws]

/-! ## The filename and the open section -/

/-- Lines with no filename marker leave the filename as it was. -/
theorem scanLines_keep_name (body : List GoString) (st : ScanState)
    (h : ∀ l ∈ body, filenameRegexFind l = none) :
    (scanLines st body).filename = st.filename := by
  induction body generalizing st with
  | nil => rfl
  | cons l body ih =>
    rw [scanLines_cons, ih _ (fun x hx => h x (List.mem_cons_of_mem l hx)),
      scanLine_keeps_name, h l (List.mem_cons_self l body)]
    rfl

/-- The filename after a scan is the value of the last filename marker met. -/
theorem scanLines_last_name (body : List GoString) (st : ScanState) :
    (scanLines st body).filename =
      ((body.filterMap filenameRegexFind).getLast?).getD st.filename := by
  induction body generalizing st with
  | nil => rfl
  | cons l body ih =>
    rw [scanLines_cons, ih, scanLine_keeps_name]
    cases hf : filenameRegexFind l with
    | none => rw [List.filterMap_cons_none hf]; rfl
    | some n =>
      rw [List.filterMap_cons_some hf, List.getLast?_cons]
      rfl

/-- `processAttachments` leaves the meaning of every name as it was. -/
theorem processAttachments_resolve (files : FileMap) (body : List GoString) :
    (processAttachments files body).resolve = files.resolve := by
  unfold processAttachments
  simp only
  split_ifs
  · rw [saveAttachment_resolve]
    exact scanLines_resolve body (ScanState.init files)
  · exact scanLines_resolve body (ScanState.init files)

/-- An open section over lines that are filename markers or ordinary lines: it stays
open, the ordinary lines are accumulated trimmed, nothing is written. -/
theorem scanLines_open_tail (tail : List GoString) (st : ScanState)
    (hin : st.inAttachment = true)
    (h : ∀ l ∈ tail, (filenameRegexFind l).isSome = true ∨
      (encodingRegexMatch l = false ∧ HasPrefix l "--".toList = false)) :
    (scanLines st tail).inAttachment = true ∧
      (scanLines st tail).b64Lines =
        st.b64Lines ++ (tail.filter fun l => (filenameRegexFind l).isNone).map TrimSpace ∧
      (scanLines st tail).files = st.files := by
  induction tail generalizing st with
  | nil => exact ⟨hin, by simp [scanLines], rfl⟩
  | cons l tail ih =>
    have hrest := fun x hx => h x (List.mem_cons_of_mem l hx)
    rw [scanLines_cons]
    cases hf : filenameRegexFind l with
    | some n =>
      rw [scanLine_filename st l n hf]
      obtain ⟨a, b, c⟩ := ih { st with filename := n } hin hrest
      refine ⟨a, ?_, c⟩
      rw [b, List.filter_cons_of_neg (by simp [hf])]
    | none =>
      rcases h l (List.mem_cons_self l tail) with h1 | ⟨he, hp⟩
      · rw [hf] at h1
        exact absurd h1 (by simp)
      · rw [scanLine_content st l hf he hin hp]
        obtain ⟨a, b, c⟩ := ih { st with b64Lines := st.b64Lines ++ [TrimSpace l] } hin hrest
        refine ⟨a, ?_, c⟩
        rw [b, List.filter_cons_of_pos (by simp [hf])]
        simp

/-- A body that ends inside a section: what `processAttachments` does at its end. -/
theorem processAttachments_open_end (files : FileMap) (pre tail : List GoString)
    (enc name : GoString)
    (hef : filenameRegexFind enc = none) (hee : encodingRegexMatch enc = true)
    (htail : ∀ l ∈ tail, (filenameRegexFind l).isSome = true ∨
      (encodingRegexMatch l = false ∧ HasPrefix l "--".toList = false))
    (hname : ((pre ++ enc :: tail).filterMap filenameRegexFind).getLast? = some name) :
    processAttachments files (pre ++ enc :: tail) =
      saveAttachment (scanLines (ScanState.init files) pre).files name
        ((tail.filter fun l => (filenameRegexFind l).isNone).map TrimSpace) := by
  have hlast := scanLines_last_name (pre ++ enc :: tail) (ScanState.init files)
  rw [hname] at hlast
  have hne : name ≠ [] := by
    have hmem : name ∈ (pre ++ enc :: tail).filterMap filenameRegexFind :=
      List.mem_of_getLast?_eq_some hname
    obtain ⟨l, _, hl⟩ := List.mem_filterMap.mp hmem
    exact filenameRegexFind_ne_nil l name hl
  obtain ⟨a, b, c⟩ := scanLines_open_tail tail
    { scanLines (ScanState.init files) pre with inAttachment := true, b64Lines := [] } rfl htail
  have hscan : scanLines (ScanState.init files) (pre ++ enc :: tail) =
      scanLines { scanLines (ScanState.init files) pre with
        inAttachment := true, b64Lines := [] } tail := by
    rw [scanLines_append, scanLines_cons, scanLine_encoding _ enc hef hee]
  unfold processAttachments
  simp only
  rw [hscan] at hlast ⊢
  rw [if_pos ⟨a, by rw [hlast]; exact hne⟩, b, c, hlast]
  rfl

/-! ## Runs of sections -/

/-- A run of writes leaves the meaning of every name as it was. -/
theorem foldl_afterWrite_resolve (secs : List AttachmentSection) (f : FileMap) :
    (secs.foldl (fun f s => afterWrite f ((filenameRegexFind s.fnLine).getD [])
      ((DecodeString (Join s.content)).getD [])) f).resolve = f.resolve := by
  induction secs generalizing f with
  | nil => rfl
  | cons s secs ih =>
    rw [List.foldl_cons, ih, afterWrite_resolve]

/-- Every line that the loop does not treat as `quit` is answered by `handleQuery`:
the unfolding of one iteration of `sessionLoop`. -/
theorem sessionLoop_step (norm : GoString → GoString) (save : Bool) (sc : SinkClient)
    (files : FileMap) (l : GoString) (rest : List GoString)
    (hq : norm l ≠ "quit".toList) :
    sessionLoop norm save sc files (l :: rest) =
      { sessionLoop norm save (handleQuery save sc (norm l) l).client
          (runSpawned files (handleQuery save sc (norm l) l).spawned) rest with
        replies :=
          (if (handleQuery save sc (norm l) l).code ≠ 0 then
              [((handleQuery save sc (norm l) l).code, (handleQuery save sc (norm l) l).reply)]
            else []) ++
            (sessionLoop norm save (handleQuery save sc (norm l) l).client
              (runSpawned files (handleQuery save sc (norm l) l).spawned) rest).replies
        bodies := (handleQuery save sc (norm l) l).spawned.toList ++
            (sessionLoop norm save (handleQuery save sc (norm l) l).client
              (runSpawned files (handleQuery save sc (norm l) l).spawned) rest).bodies } := by
  rw [sessionLoop, if_neg hq]

/-- In body-capture a line that starts with `data` is not captured: the `data` test
of `handleQuery` comes before the test of `dataSent`. -/
theorem handleQuery_data (save : Bool) (s : SinkClient) (line origLine : GoString)
    (hd : HasPrefix line "data".toList = true) :
    handleQuery save s line origLine =
      { code := 354, reply := "End data with <CR><LF>.<CR><LF>",
        client := { dataSent := true, attachmentData := s.attachmentData },
        spawned := none } := by
  rw [handleQuery, if_pos hd]

/-- A captured line: appended as received, no reply. -/
theorem handleQuery_capture (save : Bool) (s : SinkClient) (line origLine : GoString)
    (hs : s.dataSent = true) (hdot : line ≠ ".".toList)
    (hd : HasPrefix line "data".toList = false) :
    handleQuery save s line origLine =
      { code := 0, reply := "",
        client := { dataSent := true, attachmentData := s.attachmentData ++ [origLine] },
        spawned := none } := by
  rw [handleQuery, if_neg (by rw [hd]; exact Bool.false_ne_true), if_pos hs, if_neg hdot]
  cases s
  simp_all

/-- The terminating dot: 250, back to command state, the accumulated lines kept. -/
theorem handleQuery_dot (save : Bool) (s : SinkClient) (origLine : GoString)
    (hs : s.dataSent = true) :
    handleQuery save s ".".toList origLine =
      { code := 250, reply := "Ok, queued as 31337",
        client := { dataSent := false, attachmentData := s.attachmentData },
        spawned := if save then some s.attachmentData else none } := by
  rw [handleQuery, if_neg (by decide), if_pos hs, if_pos rfl]

/-- A command line: 250 Ok, state untouched. -/
theorem handleQuery_command (save : Bool) (s : SinkClient) (line origLine : GoString)
    (hs : s.dataSent = false) (hd : HasPrefix line "data".toList = false) :
    handleQuery save s line origLine =
      { code := 250, reply := "Ok", client := s, spawned := none } := by
  rw [handleQuery, if_neg (by rw [hd]; exact Bool.false_ne_true),
    if_neg (by rw [hs]; exact Bool.false_ne_true)]

/-- The loop on a `quit` line: 221 Bye and nothing else. -/
theorem sessionLoop_quit (norm : GoString → GoString) (save : Bool) (sc : SinkClient)
    (files : FileMap) (q : GoString) (post : List GoString)
    (hq : norm q = "quit".toList) :
    sessionLoop norm save sc files (q :: post) =
      { replies := [(221, "Bye")], bodies := [], client := sc, files := files } := by
  rw [sessionLoop, if_pos hq]

/-- Lines after a `quit` line do not matter, whatever came before it. -/
theorem sessionLoop_quit_cut (norm : GoString → GoString) (save : Bool)
    (pre : List GoString) (q : GoString) (post : List GoString)
    (hq : norm q = "quit".toList) (sc : SinkClient) (files : FileMap) :
    sessionLoop norm save sc files (pre ++ q :: post) =
      sessionLoop norm save sc files (pre ++ [q]) := by
  induction pre generalizing sc files with
  | nil =>
    rw [List.nil_append, List.nil_append, sessionLoop_quit norm save sc files q post hq,
      sessionLoop_quit norm save sc files q [] hq]
  | cons l pre ih =>
    by_cases hl : norm l = "quit".toList
    · rw [List.cons_append, List.cons_append, sessionLoop_quit norm save sc files l _ hl,
        sessionLoop_quit norm save sc files l _ hl]
    · rw [List.cons_append, List.cons_append, sessionLoop_step norm save sc files l _ hl,
        sessionLoop_step norm save sc files l _ hl, ih]

/-- The codes `handleQuery` returns. -/
theorem handleQuery_code (save : Bool) (s : SinkClient) (line origLine : GoString) :
    (handleQuery save s line origLine).code = 0 ∨
      (handleQuery save s line origLine).code = 250 ∨
      (handleQuery save s line origLine).code = 354 := by
  unfold handleQuery
  split
  · exact Or.inr (Or.inr rfl)
  · split
    · split
      · exact Or.inr (Or.inl rfl)
      · exact Or.inl rfl
    · exact Or.inr (Or.inl rfl)

/-- The codes the loop sends. -/
theorem sessionLoop_codes (norm : GoString → GoString) (save : Bool)
    (input : List GoString) (sc : SinkClient) (files : FileMap) (r : Nat × String)
    (hr : r ∈ (sessionLoop norm save sc files input).replies) :
    r.1 = 354 ∨ r.1 = 250 ∨ r.1 = 221 := by
  induction input generalizing sc files with
  | nil => simp [sessionLoop] at hr
  | cons l rest ih =>
    by_cases hl : norm l = "quit".toList
    · rw [sessionLoop_quit norm save sc files l rest hl] at hr
      simp only [List.mem_singleton] at hr
      subst hr
      exact Or.inr (Or.inr rfl)
    · rw [sessionLoop_step norm save sc files l rest hl] at hr
      simp only [List.mem_append] at hr
      rcases hr with hr | hr
      · split at hr
        · simp only [List.mem_singleton] at hr
          subst hr
          rcases handleQuery_code save sc (norm l) l with h | h | h
          · contradiction
          · exact Or.inr (Or.inl h)
          · exact Or.inl h
        · simp at hr
      · exact ih _ _ hr

/-- The loop on a captured line: no reply, no hand-off, the line appended as received. -/
theorem sessionLoop_capture (norm : GoString → GoString) (save : Bool) (sc : SinkClient)
    (files : FileMap) (l : GoString) (rest : List GoString)
    (hs : sc.dataSent = true) (hq : norm l ≠ "quit".toList) (hdot : norm l ≠ ".".toList)
    (hd : HasPrefix (norm l) "data".toList = false) :
    sessionLoop norm save sc files (l :: rest) =
      sessionLoop norm save { dataSent := true, attachmentData := sc.attachmentData ++ [l] }
        files rest := by
  rw [sessionLoop_step norm save sc files l rest hq,
    handleQuery_capture save sc (norm l) l hs hdot hd]
  simp [runSpawned]

/-- The loop on a whole run of captured lines. -/
theorem sessionLoop_capture_all (norm : GoString → GoString) (save : Bool)
    (files : FileMap) (b rest : List GoString) (acc : List GoString)
    (hb : ∀ l ∈ b, norm l ≠ "quit".toList ∧ norm l ≠ ".".toList ∧
      HasPrefix (norm l) "data".toList = false) :
    sessionLoop norm save { dataSent := true, attachmentData := acc } files (b ++ rest) =
      sessionLoop norm save { dataSent := true, attachmentData := acc ++ b } files rest := by
  induction b generalizing acc with
  | nil => simp
  | cons l b ih =>
    have hl := hb l (List.mem_cons_self l b)
    rw [List.cons_append, sessionLoop_capture norm save _ files l _ rfl hl.1 hl.2.1 hl.2.2,
      ih _ (fun x hx => hb x (List.mem_cons_of_mem l hx))]
    simp

/-- The loop on a command line in command state. -/
theorem sessionLoop_command (norm : GoString → GoString) (save : Bool) (sc : SinkClient)
    (files : FileMap) (l : GoString) (rest : List GoString)
    (hs : sc.dataSent = false) (hq : norm l ≠ "quit".toList)
    (hd : HasPrefix (norm l) "data".toList = false) :
    sessionLoop norm save sc files (l :: rest) =
      { sessionLoop norm save sc files rest with
        replies := (250, "Ok") :: (sessionLoop norm save sc files rest).replies } := by
  rw [sessionLoop_step norm save sc files l rest hq,
    handleQuery_command save sc (norm l) l hs hd]
  simp [runSpawned]

/-- A line that starts with `data` is not the `quit` line. -/
theorem data_ne_quit (line : GoString) (hd : HasPrefix line "data".toList = true) :
    line ≠ "quit".toList := by
  intro h
  rw [h] at hd
  exact absurd hd (by decide)

/-- The loop on a `data` line. -/
theorem sessionLoop_data (norm : GoString → GoString) (save : Bool) (sc : SinkClient)
    (files : FileMap) (l : GoString) (rest : List GoString)
    (hd : HasPrefix (norm l) "data".toList = true) :
    sessionLoop norm save sc files (l :: rest) =
      { sessionLoop norm save { dataSent := true, attachmentData := sc.attachmentData }
          files rest with
        replies := (354, "End data with <CR><LF>.<CR><LF>") ::
          (sessionLoop norm save { dataSent := true, attachmentData := sc.attachmentData }
            files rest).replies } := by
  rw [sessionLoop_step norm save sc files l rest (data_ne_quit _ hd),
    handleQuery_data save sc (norm l) l hd]
  simp [runSpawned]

/-- The loop on the terminating dot, with attachment saving on: the accumulated lines
are handed to `processAttachments` and stay in the client. -/
theorem sessionLoop_dot (norm : GoString → GoString) (files : FileMap) (l : GoString)
    (rest : List GoString) (acc : List GoString) (hdot : norm l = ".".toList) :
    sessionLoop norm true { dataSent := true, attachmentData := acc } files (l :: rest) =
      { sessionLoop norm true { dataSent := false, attachmentData := acc }
          (processAttachments files acc) rest with
        replies := (250, "Ok, queued as 31337") ::
          (sessionLoop norm true { dataSent := false, attachmentData := acc }
            (processAttachments files acc) rest).replies
        bodies := acc ::
          (sessionLoop norm true { dataSent := false, attachmentData := acc }
            (processAttachments files acc) rest).bodies } := by
  rw [sessionLoop_step norm true _ files l rest (by rw [hdot]; decide), hdot,
    handleQuery_dot true _ l rfl]
  simp [runSpawned]

/-- One complete body from any client state: the hand-off at the dot is everything
accumulated so far, the lines of earlier bodies included. -/
theorem sessionLoop_body (norm : GoString → GoString) (files : FileMap) (sc : SinkClient)
    (d e : GoString) (b rest : List GoString)
    (hd : HasPrefix (norm d) "data".toList = true) (he : norm e = ".".toList)
    (hb : ∀ l ∈ b, norm l ≠ "quit".toList ∧ norm l ≠ ".".toList ∧
      HasPrefix (norm l) "data".toList = false) :
    (sessionLoop norm true sc files (d :: (b ++ e :: rest))).bodies =
      (sc.attachmentData ++ b) ::
        (sessionLoop norm true { dataSent := false, attachmentData := sc.attachmentData ++ b }
          (processAttachments files (sc.attachmentData ++ b)) rest).bodies := by
  rw [sessionLoop_data norm true sc files d _ hd]
  simp only
  rw [sessionLoop_capture_all norm true files b _ sc.attachmentData hb,
    sessionLoop_dot norm files e rest _ he]

/-- The loop up to the first `quit` line. -/
theorem sessionLoop_append_quit (norm : GoString → GoString) (save : Bool)
    (pre : List GoString) (q : GoString) (post : List GoString)
    (hpre : ∀ l ∈ pre, norm l ≠ "quit".toList) (hq : norm q = "quit".toList)
    (sc : SinkClient) (files : FileMap) :
    sessionLoop norm save sc files (pre ++ q :: post) =
      { sessionLoop norm save sc files pre with
        replies := (sessionLoop norm save sc files pre).replies ++ [(221, "Bye")] } := by
  induction pre generalizing sc files with
  | nil =>
    rw [List.nil_append, sessionLoop_quit norm save sc files q post hq]
    simp [sessionLoop]
  | cons l pre ih =>
    have hl := hpre l (List.mem_cons_self l pre)
    rw [List.cons_append, sessionLoop_step norm save sc files l _ hl,
      sessionLoop_step norm save sc files l _ hl,
      ih (fun x hx => hpre x (List.mem_cons_of_mem l hx))]
    simp

/-- A scan starts with its seed. -/
theorem scanl_eq_cons_tail {α β : Type} (f : β → α → β) (a : β) (l : List α) :
    List.scanl f a l = a :: (List.scanl f a l).tail := by
  cases l <;> simp [List.scanl]

/-- Any number of complete bodies, from any client state: the hand-offs are the running
concatenations of the captured lines, starting from what the client already holds. -/
theorem sessionLoop_transfers (norm : GoString → GoString)
    (segs : List (GoString × List GoString × GoString))
    (h : ∀ t ∈ segs, HasPrefix (norm t.1) "data".toList = true ∧ norm t.2.2 = ".".toList ∧
      ∀ l ∈ t.2.1, norm l ≠ "quit".toList ∧ norm l ≠ ".".toList ∧
        HasPrefix (norm l) "data".toList = false)
    (sc : SinkClient) (files : FileMap) :
    (sessionLoop norm true sc files
      (segs.map fun t => t.1 :: (t.2.1 ++ [t.2.2])).flatten).bodies =
      (List.scanl (fun acc t => acc ++ t.2.1) sc.attachmentData segs).tail := by
  induction segs generalizing sc files with
  | nil => simp [sessionLoop]
  | cons t segs ih =>
    have ht := h t (List.mem_cons_self t segs)
    have hrest := fun x hx => h x (List.mem_cons_of_mem t hx)
    rw [List.map_cons, List.flatten_cons, List.cons_append, List.append_assoc,
      List.singleton_append,
      sessionLoop_body norm files sc t.1 t.2.2 t.2.1 _ ht.1 ht.2.1 ht.2.2,
      ih hrest, List.scanl_cons, List.singleton_append, List.tail_cons]
    exact (scanl_eq_cons_tail _ _ _).symm

/-! ## Further lemmas: normal forms, marker lines, calls -/

/-- The reply and the mode after `handleQuery` depend on the normalized line and the
mode only, not on the original line or the accumulated body. -/
theorem handleQuery_same (save : Bool) (s1 s2 : SinkClient) (line o1 o2 : GoString)
    (hd : s1.dataSent = s2.dataSent) :
    (handleQuery save s1 line o1).code = (handleQuery save s2 line o2).code ∧
      (handleQuery save s1 line o1).reply = (handleQuery save s2 line o2).reply ∧
      (handleQuery save s1 line o1).client.dataSent =
        (handleQuery save s2 line o2).client.dataSent := by
  unfold handleQuery
  rw [hd]
  split_ifs <;> first | exact ⟨rfl, rfl, rfl⟩ | exact ⟨rfl, rfl, hd⟩

/-- What `handleQuery` stores is the original line, or nothing. -/
theorem handleQuery_stores (save : Bool) (s : SinkClient) (line origLine : GoString) :
    (handleQuery save s line origLine).client.attachmentData = s.attachmentData ∨
      (handleQuery save s line origLine).client.attachmentData =
        s.attachmentData ++ [origLine] := by
  unfold handleQuery
  split_ifs <;> first | exact Or.inl rfl | exact Or.inr rfl

/-- Two inputs that agree line by line up to normalisation get the same replies. -/
theorem sessionLoop_replies_same (norm : GoString → GoString) (save : Bool)
    (ls1 ls2 : List GoString) (h : List.Forall₂ (fun a b => norm a = norm b) ls1 ls2)
    (s1 s2 : SinkClient) (f1 f2 : FileMap) (hd : s1.dataSent = s2.dataSent) :
    (sessionLoop norm save s1 f1 ls1).replies = (sessionLoop norm save s2 f2 ls2).replies ∧
      (sessionLoop norm save s1 f1 ls1).client.dataSent =
        (sessionLoop norm save s2 f2 ls2).client.dataSent := by
  induction h generalizing s1 s2 f1 f2 with
  | nil => exact ⟨rfl, hd⟩
  | @cons a b l1 l2 hab _ ih =>
    by_cases hq : norm a = "quit".toList
    · rw [sessionLoop_quit norm save s1 f1 a l1 hq,
        sessionLoop_quit norm save s2 f2 b l2 (hab ▸ hq)]
      exact ⟨rfl, hd⟩
    · rw [sessionLoop_step norm save s1 f1 a l1 hq,
        sessionLoop_step norm save s2 f2 b l2 (hab ▸ hq)]
      obtain ⟨hc, hr, hm⟩ := handleQuery_same save s1 s2 (norm a) a b hd
      rw [← hab]
      have hrec := ih (handleQuery save s1 (norm a) a).client
        (handleQuery save s2 (norm a) b).client
        (runSpawned f1 (handleQuery save s1 (norm a) a).spawned)
        (runSpawned f2 (handleQuery save s2 (norm a) b).spawned) hm
      simp only
      rw [hc, hr, hrec.1]
      exact ⟨rfl, hrec.2⟩

/-- A literal is found at the head of what starts with it. -/
theorem stripLit_self (lit rest : GoString) : stripLit lit (lit ++ rest) = some rest := by
  induction lit with
  | nil => rfl
  | cons p ps ih => rw [List.cons_append, stripLit, if_pos rfl, ih]

/-- The filename marker matches where it is written out. -/
theorem filenameAt_of_literal (v post : GoString) (hv : v ≠ []) (hq : dquote ∉ v) :
    filenameAt (filenameLit ++ (v ++ dquote :: post)) = some v := by
  have hall : ∀ c ∈ v, (fun c => c != dquote) c = true := by
    intro c hc
    have : c ≠ dquote := fun e => hq (e ▸ hc)
    simpa using this
  have hdrop : (v ++ dquote :: post).dropWhile (fun c => c != dquote) = dquote :: post := by
    rw [dropWhile_append_of_all _ v _ hall, List.dropWhile_cons_of_neg (by simp)]
  have htake : (v ++ dquote :: post).takeWhile (fun c => c != dquote) = v := by
    have h1 := List.takeWhile_append_dropWhile (fun c => c != dquote) (v ++ dquote :: post)
    rw [hdrop] at h1
    exact List.append_cancel_right h1
  unfold filenameAt
  rw [stripLit_self]
  simp only [hdrop, htake]
  rw [if_neg hv]

/-- A line that contains `filename="v"` with a non-empty `v` matches the filename
marker. -/
theorem filenameRegexFind_of_contains (pre v post : GoString) (hv : v ≠ [])
    (hq : dquote ∉ v) :
    (filenameRegexFind (pre ++ (filenameLit ++ (v ++ dquote :: post)))).isSome = true := by
  induction pre with
  | nil =>
    have h := filenameAt_of_literal v post hv hq
    have hl : filenameLit ++ (v ++ dquote :: post) =
        Char.ofNat 102 :: ("ilename=".toList ++ [dquote] ++ (v ++ dquote :: post)) := by
      rfl
    rw [List.nil_append, hl, filenameRegexFind, ← hl, h]
    rfl
  | cons c cs ih =>
    rw [List.cons_append, filenameRegexFind]
    cases filenameAt (c :: (cs ++ (filenameLit ++ (v ++ dquote :: post)))) with
    | some n => rfl
    | none => exact ih

/-- Outside a section, lines that are no encoding marker cause no call. -/
theorem scanCalls_outside (mid : List GoString) (st : ScanState)
    (hst : st.inAttachment = false) (h : ∀ l ∈ mid, isEncodingMarker l = false) :
    scanCalls st mid = [] ∧ (scanLines st mid).inAttachment = false ∧
      (scanLines st mid).files = st.files := by
  induction mid generalizing st with
  | nil => exact ⟨rfl, hst, rfl⟩
  | cons l mid ih =>
    have hl := h l (List.mem_cons_self l mid)
    have hstep : closesSection st l = false ∧ (scanLine st l).inAttachment = false ∧
        (scanLine st l).files = st.files := by
      unfold closesSection
      unfold isEncodingMarker at hl
      cases hf : filenameRegexFind l with
      | some n =>
        rw [scanLine_filename st l n hf]
        exact ⟨by simp, hst, rfl⟩
      | none =>
        rw [hf] at hl
        have he : encodingRegexMatch l = false := by simpa using hl
        rw [scanLine_outside st l hf he hst]
        exact ⟨by simp [hst], hst, rfl⟩
    obtain ⟨ha, hb, hc⟩ := ih (scanLine st l) hstep.2.1
      (fun x hx => h x (List.mem_cons_of_mem l hx))
    rw [scanCalls, scanLines_cons, hstep.1, ha]
    exact ⟨rfl, hb, hc.trans hstep.2.2⟩

/-- Every call of the loop is made at a closing line, with the lines the
specification describes. -/
theorem scanCalls_spec (files : FileMap) (rest pre : List GoString)
    (c : GoString × List GoString)
    (hc : c ∈ scanCalls (scanLines (ScanState.init files) pre) rest) :
    ∃ mid b after, rest = mid ++ b :: after ∧
      closesSection (scanLines (ScanState.init files) (pre ++ mid)) b = true ∧
      c = ((scanLines (ScanState.init files) (pre ++ mid)).filename,
        specEncodedLines (pre ++ mid)) := by
  induction rest generalizing pre with
  | nil => exact absurd hc (List.not_mem_nil c)
  | cons l rest ih =>
    rw [scanCalls] at hc
    rcases List.mem_append.mp hc with h1 | h2
    · by_cases hcl : closesSection (scanLines (ScanState.init files) pre) l = true
      · rw [if_pos hcl] at h1
        have hin : (scanLines (ScanState.init files) pre).inAttachment = true := by
          unfold closesSection at hcl
          simp only [Bool.and_eq_true] at hcl
          exact hcl.1.2
        refine ⟨[], l, rest, rfl, by rw [List.append_nil]; exact hcl, ?_⟩
        rw [List.append_nil, ← scanLines_spec files pre hin]
        exact List.mem_singleton.mp h1
      · rw [if_neg hcl] at h1
        exact absurd h1 (List.not_mem_nil c)
    · rw [← scanLines_snoc] at h2
      obtain ⟨mid, b, after, e1, e2, e3⟩ := ih (pre ++ [l]) h2
      refine ⟨l :: mid, b, after, by rw [e1]; rfl, ?_, ?_⟩
      · rw [List.append_assoc] at e2
        exact e2
      · rw [List.append_assoc] at e3
        exact e3

/-! ## Mails of a session and the growth of the accumulated body -/

/-- Command lines in command state change neither the client nor the hand-offs. -/
theorem sessionLoop_commands (norm : GoString → GoString) (save : Bool)
    (cmds rest : List GoString) (sc : SinkClient) (files : FileMap)
    (hs : sc.dataSent = false)
    (h : ∀ c ∈ cmds, norm c ≠ "quit".toList ∧ HasPrefix (norm c) "data".toList = false) :
    (sessionLoop norm save sc files (cmds ++ rest)).bodies =
        (sessionLoop norm save sc files rest).bodies ∧
      (sessionLoop norm save sc files (cmds ++ rest)).client =
        (sessionLoop norm save sc files rest).client ∧
      (sessionLoop norm save sc files (cmds ++ rest)).files =
        (sessionLoop norm save sc files rest).files := by
  induction cmds with
  | nil => exact ⟨rfl, rfl, rfl⟩
  | cons c cmds ih =>
    have hc := h c (List.mem_cons_self c cmds)
    rw [List.cons_append, sessionLoop_command norm save sc files c _ hs hc.1 hc.2]
    exact ih (fun x hx => h x (List.mem_cons_of_mem c hx))

/-- One mail from a client in command state: the hand-off at its dot is everything
accumulated so far. -/
theorem sessionLoop_mail (norm : GoString → GoString) (files : FileMap) (sc : SinkClient)
    (t : MailTransfer) (rest : List GoString) (hs : sc.dataSent = false)
    (hc : ∀ c ∈ t.commands, norm c ≠ "quit".toList ∧
      HasPrefix (norm c) "data".toList = false)
    (hd : HasPrefix (norm t.dataLine) "data".toList = true)
    (he : norm t.dotLine = ".".toList)
    (hb : ∀ l ∈ t.lines, norm l ≠ "quit".toList ∧ norm l ≠ ".".toList ∧
      HasPrefix (norm l) "data".toList = false) :
    (sessionLoop norm true sc files
        (t.commands ++ t.dataLine :: (t.lines ++ t.dotLine :: rest))).bodies =
      (sc.attachmentData ++ t.lines) ::
        (sessionLoop norm true
          { dataSent := false, attachmentData := sc.attachmentData ++ t.lines }
          (processAttachments files (sc.attachmentData ++ t.lines)) rest).bodies := by
  rw [(sessionLoop_commands norm true t.commands _ sc files hs hc).1,
    sessionLoop_body norm files sc t.dataLine t.dotLine t.lines rest hd he hb]

/-- Any number of mails, with command lines in front of each and behind the last: the
hand-offs are the running concatenations of the captured lines. -/
theorem sessionLoop_mails (norm : GoString → GoString) (mails : List MailTransfer)
    (last : List GoString)
    (h : ∀ t ∈ mails,
      (∀ c ∈ t.commands, norm c ≠ "quit".toList ∧ HasPrefix (norm c) "data".toList = false) ∧
      HasPrefix (norm t.dataLine) "data".toList = true ∧ norm t.dotLine = ".".toList ∧
      ∀ l ∈ t.lines, norm l ≠ "quit".toList ∧ norm l ≠ ".".toList ∧
        HasPrefix (norm l) "data".toList = false)
    (hlast : ∀ c ∈ last, norm c ≠ "quit".toList ∧ HasPrefix (norm c) "data".toList = false)
    (sc : SinkClient) (files : FileMap) (hs : sc.dataSent = false) :
    (sessionLoop norm true sc files
      ((mails.map fun t => t.commands ++ t.dataLine :: (t.lines ++ [t.dotLine])).flatten ++
        last)).bodies =
      (List.scanl (fun acc t => acc ++ t.lines) sc.attachmentData mails).tail := by
  induction mails generalizing sc files with
  | nil =>
    have h0 := (sessionLoop_commands norm true last [] sc files hs hlast).1
    rw [List.append_nil] at h0
    simp only [List.map_nil, List.flatten_nil, List.nil_append, List.scanl_nil,
      List.tail_cons]
    rw [h0]
    rfl
  | cons t mails ih =>
    obtain ⟨h1, h2, h3, h4⟩ := h t (List.mem_cons_self t mails)
    have hrest := fun x hx => h x (List.mem_cons_of_mem t hx)
    have e : ((t :: mails).map fun t =>
          t.commands ++ t.dataLine :: (t.lines ++ [t.dotLine])).flatten ++ last =
        t.commands ++ t.dataLine :: (t.lines ++ t.dotLine ::
          ((mails.map fun t => t.commands ++ t.dataLine :: (t.lines ++ [t.dotLine])).flatten
            ++ last)) := by
      simp
    rw [e, sessionLoop_mail norm files sc t _ hs h1 h2 h3 h4, ih hrest _ _ rfl,
      List.scanl_cons, List.singleton_append, List.tail_cons]
    exact (scanl_eq_cons_tail _ _ _).symm

/-- `handleQuery` never removes a line from the accumulated body. -/
theorem sessionLoop_grows_from (norm : GoString → GoString) (save : Bool)
    (input : List GoString) (sc : SinkClient) (files : FileMap) :
    ∃ more, (sessionLoop norm save sc files input).client.attachmentData =
      sc.attachmentData ++ more := by
  induction input generalizing sc files with
  | nil => exact ⟨[], by simp [sessionLoop]⟩
  | cons l rest ih =>
    by_cases hq : norm l = "quit".toList
    · rw [sessionLoop_quit norm save sc files l rest hq]
      exact ⟨[], by simp⟩
    · rw [sessionLoop_step norm save sc files l rest hq]
      obtain ⟨more, hmore⟩ := ih (handleQuery save sc (norm l) l).client
        (runSpawned files (handleQuery save sc (norm l) l).spawned)
      simp only
      rw [hmore]
      rcases handleQuery_stores save sc (norm l) l with h | h
      · exact ⟨more, by rw [h]⟩
      · exact ⟨l :: more, by rw [h]; simp⟩

/-- The accumulated body only grows: at any later point of the session it begins with
what it held at an earlier point. -/
theorem sessionLoop_attachmentData_grows (norm : GoString → GoString) (save : Bool)
    (xs ys : List GoString) (sc : SinkClient) (files : FileMap) :
    ∃ more, (sessionLoop norm save sc files (xs ++ ys)).client.attachmentData =
      (sessionLoop norm save sc files xs).client.attachmentData ++ more := by
  induction xs generalizing sc files with
  | nil =>
    obtain ⟨more, h⟩ := sessionLoop_grows_from norm save ys sc files
    exact ⟨more, by rw [List.nil_append, h]; simp [sessionLoop]⟩
  | cons l xs ih =>
    by_cases hq : norm l = "quit".toList
    · rw [List.cons_append, sessionLoop_quit norm save sc files l _ hq,
        sessionLoop_quit norm save sc files l _ hq]
      exact ⟨[], by simp⟩
    · rw [List.cons_append, sessionLoop_step norm save sc files l _ hq,
        sessionLoop_step norm save sc files l _ hq]
      exact ih _ _

/-- One mail from a client in command state: the client behind its dot. -/
theorem sessionLoop_mail_client (norm : GoString → GoString) (files : FileMap)
    (sc : SinkClient) (t : MailTransfer) (rest : List GoString) (hs : sc.dataSent = false)
    (hc : ∀ c ∈ t.commands, norm c ≠ "quit".toList ∧
      HasPrefix (norm c) "data".toList = false)
    (hd : HasPrefix (norm t.dataLine) "data".toList = true)
    (he : norm t.dotLine = ".".toList)
    (hb : ∀ l ∈ t.lines, norm l ≠ "quit".toList ∧ norm l ≠ ".".toList ∧
      HasPrefix (norm l) "data".toList = false) :
    (sessionLoop norm true sc files
        (t.commands ++ t.dataLine :: (t.lines ++ t.dotLine :: rest))).client =
      (sessionLoop norm true
        { dataSent := false, attachmentData := sc.attachmentData ++ t.lines }
        (processAttachments files (sc.attachmentData ++ t.lines)) rest).client := by
  rw [(sessionLoop_commands norm true t.commands _ sc files hs hc).2.1,
    sessionLoop_data norm true sc files t.dataLine _ hd]
  simp only
  rw [sessionLoop_capture_all norm true files t.lines _ sc.attachmentData hb,
    sessionLoop_dot norm files t.dotLine rest _ he]

/-- Any number of mails: the client at the end holds every captured line. -/
theorem sessionLoop_mails_client (norm : GoString → GoString) (mails : List MailTransfer)
    (last : List GoString)
    (h : ∀ t ∈ mails,
      (∀ c ∈ t.commands, norm c ≠ "quit".toList ∧ HasPrefix (norm c) "data".toList = false) ∧
      HasPrefix (norm t.dataLine) "data".toList = true ∧ norm t.dotLine = ".".toList ∧
      ∀ l ∈ t.lines, norm l ≠ "quit".toList ∧ norm l ≠ ".".toList ∧
        HasPrefix (norm l) "data".toList = false)
    (hlast : ∀ c ∈ last, norm c ≠ "quit".toList ∧ HasPrefix (norm c) "data".toList = false)
    (sc : SinkClient) (files : FileMap) (hs : sc.dataSent = false) :
    (sessionLoop norm true sc files
      ((mails.map fun t => t.commands ++ t.dataLine :: (t.lines ++ [t.dotLine])).flatten ++
        last)).client =
      { dataSent := false,
        attachmentData := sc.attachmentData ++ (mails.map fun t => t.lines).flatten } := by
  induction mails generalizing sc files with
  | nil =>
    have h0 := (sessionLoop_commands norm true last [] sc files hs hlast).2.1
    rw [List.append_nil] at h0
    simp only [List.map_nil, List.flatten_nil, List.nil_append, List.append_nil]
    rw [h0]
    cases sc
    simp_all [sessionLoop]
  | cons t mails ih =>
    obtain ⟨h1, h2, h3, h4⟩ := h t (List.mem_cons_self t mails)
    have hrest := fun x hx => h x (List.mem_cons_of_mem t hx)
    have e : ((t :: mails).map fun t =>
          t.commands ++ t.dataLine :: (t.lines ++ [t.dotLine])).flatten ++ last =
        t.commands ++ t.dataLine :: (t.lines ++ t.dotLine ::
          ((mails.map fun t => t.commands ++ t.dataLine :: (t.lines ++ [t.dotLine])).flatten
            ++ last)) := by
      simp
    rw [e, sessionLoop_mail_client norm files sc t _ hs h1 h2 h3 h4, ih hrest _ _ rfl]
    simp

/-! ## The session claims -/

/-- C2, as stated, fails: in body-capture the line `Data follows` has the normalized
form `data follows`, which is neither `.` nor `quit`, yet `handleQuery` answers 354
and does not append the line to the accumulated body. -/
theorem c2_data_line_not_captured :
    normalize "Data follows".toList ≠ ".".toList ∧
    normalize "Data follows".toList ≠ "quit".toList ∧
    (handleQuery false { dataSent := true, attachmentData := [] }
      (normalize "Data follows".toList) "Data follows".toList).code = 354 ∧
    (handleQuery false { dataSent := true, attachmentData := [] }
      (normalize "Data follows".toList) "Data follows".toList).client.attachmentData = [] := by
  decide

/-- C2, amended: in body-capture, every line whose normalized form is not `.`, is not
`quit` and does not start with `data` gets no reply (code 0), leaves the session in
body-capture and is appended, as received, as the new last element of the accumulated
body; in the loop nothing is sent and nothing is handed off for it. -/
theorem c2_body_line_captured (norm : GoString → GoString) (save : Bool) (s : SinkClient)
    (files : FileMap) (origLine : GoString) (rest : List GoString)
    (hs : s.dataSent = true) (hq : norm origLine ≠ "quit".toList)
    (hdot : norm origLine ≠ ".".toList)
    (hd : HasPrefix (norm origLine) "data".toList = false) :
    handleQuery save s (norm origLine) origLine =
        { code := 0, reply := "",
          client := { dataSent := true, attachmentData := s.attachmentData ++ [origLine] },
          spawned := none } ∧
      sessionLoop norm save s files (origLine :: rest) =
        sessionLoop norm save
          { dataSent := true, attachmentData := s.attachmentData ++ [origLine] } files rest :=
  ⟨handleQuery_capture save s (norm origLine) origLine hs hdot hd,
    sessionLoop_capture norm save s files origLine rest hs hq hdot hd⟩

/-- C2, amended, at the line `aGVsbG8=` received after `To: Bob`: the case of the
line is kept and no reply is produced. -/
theorem c2_body_line_captured_witness :
    handleQuery true { dataSent := true, attachmentData := ["To: Bob".toList] }
        (normalize "aGVsbG8=".toList) "aGVsbG8=".toList =
      { code := 0, reply := "",
        client := { dataSent := true,
                    attachmentData := ["To: Bob".toList] ++ ["aGVsbG8=".toList] },
        spawned := none } :=
  (c2_body_line_captured normalize true { dataSent := true, attachmentData := ["To: Bob".toList] }
    emptyFiles "aGVsbG8=".toList [] rfl (by decide) (by decide) (by decide)).1

/-- C3, as stated, fails: after the terminating `.` the accumulated body still holds
the captured line, it is not empty. -/
theorem c3_body_not_cleared :
    normalize ".".toList = ".".toList ∧
    (handleQuery true { dataSent := true, attachmentData := ["hello".toList] }
      (normalize ".".toList) ".".toList).client.attachmentData = ["hello".toList] ∧
    (handleQuery true { dataSent := true, attachmentData := ["hello".toList] }
      (normalize ".".toList) ".".toList).client.attachmentData ≠ [] := by
  decide

/-- C3, amended: in body-capture, for every line whose normalized form is exactly `.`,
`handleQuery` replies 250 with `Ok, queued as 31337`, returns the session to command
state and leaves the accumulated body as it was; with attachment saving on, that body
is what is handed to `processAttachments`. -/
theorem c3_dot_ends_body (save : Bool) (s : SinkClient) (line origLine : GoString)
    (hs : s.dataSent = true) (hdot : line = ".".toList) :
    handleQuery save s line origLine =
      { code := 250, reply := "Ok, queued as 31337",
        client := { dataSent := false, attachmentData := s.attachmentData },
        spawned := if save then some s.attachmentData else none } := by
  rw [hdot]
  exact handleQuery_dot save s origLine hs

/-- C3, amended, at the line ` . ` after one captured line. -/
theorem c3_dot_ends_body_witness :
    handleQuery true { dataSent := true, attachmentData := ["hello".toList] }
        (normalize " . ".toList) " . ".toList =
      { code := 250, reply := "Ok, queued as 31337",
        client := { dataSent := false, attachmentData := ["hello".toList] },
        spawned := if true then some ["hello".toList] else none } :=
  c3_dot_ends_body true { dataSent := true, attachmentData := ["hello".toList] }
    (normalize " . ".toList) " . ".toList rfl (by decide)

/-- C4, as stated, fails on the text of the reply: the message sent for `DATA` is
`End data with <CR><LF>.<CR><LF>`, without a full stop at its end. -/
theorem c4_message_has_no_final_stop :
    HasPrefix (normalize "DATA".toList) "data".toList = true ∧
    (handleQuery false NewSinkClient (normalize "DATA".toList) "DATA".toList).reply ≠
      "End data with <CR><LF>.<CR><LF>." ∧
    (handleQuery false NewSinkClient (normalize "DATA".toList) "DATA".toList).reply =
      "End data with <CR><LF>.<CR><LF>" := by
  decide

/-- C4, amended: in every session state, for every line whose normalized form starts
with `data`, whatever follows, the reply is code 354 with the message
`End data with <CR><LF>.<CR><LF>` and the session is in body-capture afterwards (the
accumulated body is untouched and nothing is handed off). -/
theorem c4_data_enters_body_capture (save : Bool) (s : SinkClient)
    (line origLine : GoString) (hd : HasPrefix line "data".toList = true) :
    (handleQuery save s line origLine).code = 354 ∧
      (handleQuery save s line origLine).reply = "End data with <CR><LF>.<CR><LF>" ∧
      (handleQuery save s line origLine).client.dataSent = true ∧
      (handleQuery save s line origLine).client.attachmentData = s.attachmentData ∧
      (handleQuery save s line origLine).spawned = none := by
  rw [handleQuery_data save s line origLine hd]
  exact ⟨rfl, rfl, rfl, rfl, rfl⟩

/-- C4, amended, at the line `DATAbase x` received in body-capture. -/
theorem c4_data_enters_body_capture_witness :
    HasPrefix (normalize "DATAbase x".toList) "data".toList = true ∧
    (handleQuery true { dataSent := true, attachmentData := ["a".toList] }
      (normalize "DATAbase x".toList) "DATAbase x".toList).code = 354 :=
  ⟨by decide,
    (c4_data_enters_body_capture true { dataSent := true, attachmentData := ["a".toList] }
      (normalize "DATAbase x".toList) "DATAbase x".toList (by decide)).1⟩

/-- C5: in command state, every line whose normalized form is not `quit` and does not
start with `data` is answered with exactly 250 `Ok`; the client (mode and accumulated
body) is unchanged, nothing is handed off, and the loop goes on from the same state. -/
theorem c5_command_line_ok (norm : GoString → GoString) (save : Bool) (s : SinkClient)
    (files : FileMap) (origLine : GoString) (rest : List GoString)
    (hs : s.dataSent = false) (hq : norm origLine ≠ "quit".toList)
    (hd : HasPrefix (norm origLine) "data".toList = false) :
    handleQuery save s (norm origLine) origLine =
        { code := 250, reply := "Ok", client := s, spawned := none } ∧
      sessionLoop norm save s files (origLine :: rest) =
        { sessionLoop norm save s files rest with
          replies := (250, "Ok") :: (sessionLoop norm save s files rest).replies } :=
  ⟨handleQuery_command save s (norm origLine) origLine hs hd,
    sessionLoop_command norm save s files origLine rest hs hq hd⟩

/-- C5 at the line `HELO test` in a new session. -/
theorem c5_command_line_ok_witness :
    handleQuery false NewSinkClient (normalize "HELO test".toList) "HELO test".toList =
      { code := 250, reply := "Ok", client := NewSinkClient, spawned := none } :=
  (c5_command_line_ok normalize false NewSinkClient emptyFiles "HELO test".toList [] rfl
    (by decide) (by decide)).1

/-- C6: in either session state, a line whose normalized form is `quit` makes the loop
send 221 `Bye` and return with the client and the files as they were, whatever lines
follow; after any lines `pre` that hold no `quit`, the session is what `pre` alone
gives, with 221 `Bye` as its last reply. `handleQuery` is not run on the line. -/
theorem c6_quit_ends_session (norm : GoString → GoString) (save : Bool) (sc : SinkClient)
    (files : FileMap) (pre : List GoString) (q : GoString) (post : List GoString)
    (hpre : ∀ l ∈ pre, norm l ≠ "quit".toList) (hq : norm q = "quit".toList) :
    sessionLoop norm save sc files (q :: post) =
        { replies := [(221, "Bye")], bodies := [], client := sc, files := files } ∧
      sessionLoop norm save sc files (pre ++ q :: post) =
        { sessionLoop norm save sc files pre with
          replies := (sessionLoop norm save sc files pre).replies ++ [(221, "Bye")] } :=
  ⟨sessionLoop_quit norm save sc files q post hq,
    sessionLoop_append_quit norm save pre q post hpre hq sc files⟩

/-- C6 in body-capture: ` QUIT ` after a captured line; the lines behind it are not
answered and the accumulated body is not touched. -/
theorem c6_quit_ends_session_witness :
    (sessionLoop normalize true { dataSent := true, attachmentData := [] } emptyFiles
      (["x".toList] ++ " QUIT ".toList :: ["NOOP".toList, "DATA".toList])).replies =
        [(221, "Bye")] ∧
    (sessionLoop normalize true { dataSent := true, attachmentData := [] } emptyFiles
      (["x".toList] ++ " QUIT ".toList :: ["NOOP".toList, "DATA".toList])).client =
        { dataSent := true, attachmentData := ["x".toList] } := by
  have h := (c6_quit_ends_session normalize true { dataSent := true, attachmentData := [] }
    emptyFiles ["x".toList] " QUIT ".toList ["NOOP".toList, "DATA".toList]
    (by decide) (by decide)).2
  rw [h]
  exact ⟨by decide, by decide⟩

/-- C8, as stated, fails: in the session `DATA`, `first`, `.`, `DATA`, `second`, `.`
with attachment saving on, the body handed to `processAttachments` at the second `.`
is `first`, `second`, not `second` alone: the `data` command does not empty the
accumulated body. -/
theorem c8_second_body_holds_first :
    (HandleClient normalize "localhost" true emptyFiles
      ["DATA".toList, "first".toList, ".".toList,
       "DATA".toList, "second".toList, ".".toList]).bodies =
      [["first".toList], ["first".toList, "second".toList]] ∧
    (handleQuery true { dataSent := false, attachmentData := ["first".toList] }
      (normalize "DATA".toList) "DATA".toList).client.attachmentData ≠ [] := by
  decide

/-- C8, amended: the accumulated body is never reset. In a session of any number of
mails with attachment saving on (each: command lines, a line starting with `data`,
captured lines, a line `.`; command lines may follow the last), the receiver holds at
the k-th terminating `.`, where `processAttachments` is spawned on it, the original
lines of the first k bodies, in order, and at the end the lines of all bodies; and in
every session the accumulated body at a later point begins with what it was at an
earlier point, so a goroutine that starts late reads those lines followed by the
lines captured since. -/
theorem c8_bodies_accumulate (norm : GoString → GoString) (helo : String)
    (files : FileMap) (mails : List MailTransfer) (last : List GoString)
    (h : ∀ t ∈ mails,
      (∀ c ∈ t.commands, norm c ≠ "quit".toList ∧ HasPrefix (norm c) "data".toList = false) ∧
      HasPrefix (norm t.dataLine) "data".toList = true ∧ norm t.dotLine = ".".toList ∧
      ∀ l ∈ t.lines, norm l ≠ "quit".toList ∧ norm l ≠ ".".toList ∧
        HasPrefix (norm l) "data".toList = false)
    (hlast : ∀ c ∈ last, norm c ≠ "quit".toList ∧
      HasPrefix (norm c) "data".toList = false) :
    (HandleClient norm helo true files
        ((mails.map fun t => t.commands ++ t.dataLine :: (t.lines ++ [t.dotLine])).flatten
          ++ last)).bodies =
        (List.scanl (fun acc t => acc ++ t.lines) [] mails).tail ∧
      (HandleClient norm helo true files
        ((mails.map fun t => t.commands ++ t.dataLine :: (t.lines ++ [t.dotLine])).flatten
          ++ last)).client =
        { dataSent := false, attachmentData := (mails.map fun t => t.lines).flatten } ∧
      (∀ (save : Bool) (xs ys : List GoString), ∃ more,
        (HandleClient norm helo save files (xs ++ ys)).client.attachmentData =
          (HandleClient norm helo save files xs).client.attachmentData ++ more) := by
  refine ⟨sessionLoop_mails norm mails last h hlast NewSinkClient files rfl, ?_, ?_⟩
  · have hc := sessionLoop_mails_client norm mails last h hlast NewSinkClient files rfl
    unfold HandleClient
    simp only
    rw [hc]
    rfl
  · intro save xs ys
    exact sessionLoop_attachmentData_grows norm save xs ys NewSinkClient files

/-- C8, amended, at the session `HELO x`, `DATA`, `first`, `.`, `MAIL FROM:<a>`, `data`,
`second`, `.`, `NOOP`: the second hand-off is `first`, `second`. -/
theorem c8_bodies_accumulate_witness :
    (HandleClient normalize "localhost" true emptyFiles
      ["HELO x".toList, "DATA".toList, "first".toList, ".".toList,
       "MAIL FROM:<a>".toList, "data".toList, "second".toList, ".".toList,
       "NOOP".toList]).bodies =
      [["first".toList], ["first".toList, "second".toList]] :=
  (c8_bodies_accumulate normalize "localhost" emptyFiles
    [{ commands := ["HELO x".toList], dataLine := "DATA".toList,
       lines := ["first".toList], dotLine := ".".toList },
     { commands := ["MAIL FROM:<a>".toList], dataLine := "data".toList,
       lines := ["second".toList], dotLine := ".".toList }]
    ["NOOP".toList] (by decide) (by decide)).1.trans (by decide)

/-- C10: for every sequence of input lines, every reply of the session has a code
among 220, 354, 250 and 221; `handleQuery` returns only 0 (no reply), 250 or 354, and
a code 0 is never sent. -/
theorem c10_reply_codes (norm : GoString → GoString) (helo : String) (save : Bool)
    (files : FileMap) (input : List GoString) (s : SinkClient) (line origLine : GoString)
    (r : Nat × String) (hr : r ∈ (HandleClient norm helo save files input).replies) :
    (r.1 = 220 ∨ r.1 = 354 ∨ r.1 = 250 ∨ r.1 = 221) ∧
      ((handleQuery save s line origLine).code = 0 ∨
        (handleQuery save s line origLine).code = 250 ∨
        (handleQuery save s line origLine).code = 354) := by
  refine ⟨?_, handleQuery_code save s line origLine⟩
  unfold HandleClient at hr
  simp only [List.mem_cons] at hr
  rcases hr with hr | hr
  · subst hr
    exact Or.inl rfl
  · exact Or.inr (sessionLoop_codes norm save input NewSinkClient files r hr)

/-- C10 at the session `HELO x`, `DATA`, `body`, `.`, `QUIT` and its reply to the `.`. -/
theorem c10_reply_codes_witness :
    (250, "Ok, queued as 31337") ∈
        (HandleClient normalize "localhost" true emptyFiles
          ["HELO x".toList, "DATA".toList, "body".toList, ".".toList,
           "QUIT".toList]).replies ∧
      ((250, "Ok, queued as 31337").1 = 220 ∨ (250, "Ok, queued as 31337").1 = 354 ∨
        (250, "Ok, queued as 31337").1 = 250 ∨ (250, "Ok, queued as 31337").1 = 221) :=
  ⟨by decide,
    (c10_reply_codes normalize "localhost" true emptyFiles
      ["HELO x".toList, "DATA".toList, "body".toList, ".".toList, "QUIT".toList]
      NewSinkClient [] [] (250, "Ok, queued as 31337") (by decide)).1⟩

/-! ## The scanner claims -/

/-- C1, as stated, fails: the body `filename="x.bin"`, `Content-Transfer-Encoding: base64`,
`aGVsbG8=`, `--filename="z"` has the shape the claim asks for (its last line begins
with `--`), yet no file `x.bin` exists afterwards: the last line is read as a filename
marker, so it closes nothing and the content is saved as `z` at the end of the body. -/
theorem c1_boundary_with_marker_no_file :
    filenameRegexFind "filename=\"x.bin\"".toList = some "x.bin".toList ∧
    encodingRegexMatch "Content-Transfer-Encoding: base64".toList = true ∧
    DecodeString (Join ["aGVsbG8=".toList]) = some [104, 101, 108, 108, 111] ∧
    HasPrefix "--filename=\"z\"".toList "--".toList = true ∧
    processAttachments emptyFiles
      ["filename=\"x.bin\"".toList, "Content-Transfer-Encoding: base64".toList,
       "aGVsbG8=".toList, "--filename=\"z\"".toList] "x.bin".toList = none ∧
    processAttachments emptyFiles
      ["filename=\"x.bin\"".toList, "Content-Transfer-Encoding: base64".toList,
       "aGVsbG8=".toList, "--filename=\"z\"".toList] "z".toList =
        some [104, 101, 108, 108, 111] := by
  decide

/-- C1, amended: for every body made of a line whose filename marker is `name`, then an
encoding-marker line that holds no filename marker, then one or more content lines
whose concatenation is valid base64 decoding to `data`, then a line that begins with
`--` and holds neither a filename marker nor an encoding marker, all that
`processAttachments` does to the directory is one `os.WriteFile` of `name` with exactly
`data`, the boundary line not being part of the payload; when that write succeeds
(`name` denotes a file of the directory), `name` holds exactly `data` afterwards, and
when it fails the directory is as before. -/
theorem c1_attachment_round_trip (files : FileMap)
    (name fnLine encLine boundary : GoString) (content : List GoString) (data : List Nat)
    (hfn : filenameRegexFind fnLine = some name)
    (hef : filenameRegexFind encLine = none) (hee : encodingRegexMatch encLine = true)
    (hn : content ≠ []) (hdec : DecodeString (Join content) = some data)
    (hbp : HasPrefix boundary "--".toList = true)
    (hbf : filenameRegexFind boundary = none) (hbe : encodingRegexMatch boundary = false) :
    processAttachments files (fnLine :: encLine :: (content ++ [boundary])) =
        afterWrite files name data ∧
      (∀ file, files.resolve name = some file →
        WriteFile files name data =
            some (processAttachments files (fnLine :: encLine :: (content ++ [boundary]))) ∧
          processAttachments files (fnLine :: encLine :: (content ++ [boundary])) name =
            some data) ∧
      (files.resolve name = none →
        processAttachments files (fnLine :: encLine :: (content ++ [boundary])) = files) := by
  rw [processAttachments_section files name fnLine encLine boundary content data hfn hef hee
    hn hdec hbp hbf hbe]
  refine ⟨rfl, fun file hfile => ⟨?_, read_afterWrite_same files name name file data hfile hfile⟩,
    fun hfail => afterWrite_of_fail files name data hfail⟩
  unfold afterWrite WriteFile
  rw [hfile]

/-- C1, amended, at the body of the specification in a directory where `a.txt` can be
written: `a.txt` holds the bytes of `hello`. -/
theorem c1_attachment_round_trip_witness :
    processAttachments emptyFiles
      ("Content-Disposition: attachment; filename=\"a.txt\"".toList ::
        "Content-Transfer-Encoding: base64".toList ::
        (["aGVsbG8=".toList] ++ ["--boundary--".toList])) "a.txt".toList =
      some [104, 101, 108, 108, 111] :=
  ((c1_attachment_round_trip emptyFiles "a.txt".toList
    "Content-Disposition: attachment; filename=\"a.txt\"".toList
    "Content-Transfer-Encoding: base64".toList "--boundary--".toList ["aGVsbG8=".toList]
    [104, 101, 108, 108, 111] (by decide) (by decide) (by decide) (by decide) (by decide)
    (by decide) (by decide) (by decide)).2.1 "a.txt".toList (by decide)).2

/-- C7, as stated, fails: in the body `Content-Transfer-Encoding: base64`, `aGVsbG8=`,
`filename="a.txt"`, `--b` no filename-marker line stands before the encoding-marker
line, yet `a.txt` is written: a filename marker met after the encoding marker and
before the boundary names the file. -/
theorem c7_later_filename_is_used :
    filenameRegexFind "Content-Transfer-Encoding: base64".toList = none ∧
    encodingRegexMatch "Content-Transfer-Encoding: base64".toList = true ∧
    emptyFiles "a.txt".toList = none ∧
    processAttachments emptyFiles
      ["Content-Transfer-Encoding: base64".toList, "aGVsbG8=".toList,
       "filename=\"a.txt\"".toList, "--b".toList] "a.txt".toList =
        some [104, 101, 108, 108, 111] := by
  decide

/-- C7, amended: no file is written before the scan meets a filename-marker line. For
every body `pre ++ post` in which no line of `pre` is a filename-marker line, the scan
of `pre` leaves the file map as it was and the filename empty, whatever encoding
markers, decodable content and boundaries `pre` holds, and the scan goes on over
`post` from there; in particular a body with no filename-marker line at all writes
no file. -/
theorem c7_no_filename_no_file (files : FileMap) (pre post : List GoString)
    (h : ∀ l ∈ pre, filenameRegexFind l = none) :
    (scanLines (ScanState.init files) pre).files = files ∧
      (scanLines (ScanState.init files) pre).filename = [] ∧
      scanLines (ScanState.init files) (pre ++ post) =
        scanLines (scanLines (ScanState.init files) pre) post ∧
      processAttachments files pre = files := by
  have hs := scanLines_no_name pre (ScanState.init files) h rfl
  refine ⟨hs.2, hs.1, scanLines_append _ pre post, ?_⟩
  unfold processAttachments
  simp only
  rw [if_neg (by simp [hs.1])]
  exact hs.2

/-- C7, amended, at the body `Content-Transfer-Encoding: base64`, `aGVsbG8=`, `--b`:
the content decodes, and nothing is written. -/
theorem c7_no_filename_no_file_witness :
    DecodeString (Join ["aGVsbG8=".toList]) = some [104, 101, 108, 108, 111] ∧
    processAttachments emptyFiles
      ["Content-Transfer-Encoding: base64".toList, "aGVsbG8=".toList, "--b".toList] =
      emptyFiles :=
  ⟨by decide,
    (c7_no_filename_no_file emptyFiles
      ["Content-Transfer-Encoding: base64".toList, "aGVsbG8=".toList, "--b".toList] []
      (by decide)).2.2.2⟩

/-- C9: for every filename and every list of encoded lines whose concatenation
`DecodeString` rejects, `saveAttachment` leaves the file map unchanged; and whatever
the accumulated body holds, the reply to the terminating `.` is 250. -/
theorem c9_invalid_base64_writes_nothing (files : FileMap) (filename : GoString)
    (b64Lines : List GoString) (save : Bool) (s : SinkClient) (origLine : GoString)
    (hbad : DecodeString (Join b64Lines) = none) (hs : s.dataSent = true) :
    saveAttachment files filename b64Lines = files ∧
      (handleQuery save s ".".toList origLine).code = 250 ∧
      (handleQuery save s ".".toList origLine).reply = "Ok, queued as 31337" := by
  refine ⟨saveAttachment_bad files filename b64Lines hbad, ?_, ?_⟩
  · rw [handleQuery_dot save s origLine hs]
  · rw [handleQuery_dot save s origLine hs]

/-- C9 at the lines `aGVsbG8`, `=x` for `a.txt`, in a session whose body holds them. -/
theorem c9_invalid_base64_writes_nothing_witness :
    DecodeString (Join ["aGVsbG8".toList, "=x".toList]) = none ∧
    saveAttachment emptyFiles "a.txt".toList ["aGVsbG8".toList, "=x".toList] = emptyFiles ∧
    (handleQuery true
      { dataSent := true, attachmentData := ["aGVsbG8".toList, "=x".toList] }
      ".".toList ".".toList).code = 250 :=
  ⟨by decide,
    (c9_invalid_base64_writes_nothing emptyFiles "a.txt".toList
      ["aGVsbG8".toList, "=x".toList] true
      { dataSent := true, attachmentData := ["aGVsbG8".toList, "=x".toList] } ".".toList
      (by decide) rfl).1,
    (c9_invalid_base64_writes_nothing emptyFiles "a.txt".toList
      ["aGVsbG8".toList, "=x".toList] true
      { dataSent := true, attachmentData := ["aGVsbG8".toList, "=x".toList] } ".".toList
      (by decide) rfl).2.1⟩

/-! ## The further claims -/

/-- C11: an attachment is persisted only when both its filename and its list of
encoded lines are non-empty: for every call of `saveAttachment` with an empty filename
or an empty list of lines the file map is unchanged. -/
theorem c11_save_needs_name_and_lines (files : FileMap) (filename : GoString)
    (b64Lines : List GoString) (h : filename = [] ∨ b64Lines = []) :
    saveAttachment files filename b64Lines = files := by
  unfold saveAttachment
  rw [if_pos (by simpa using h)]

/-- C11 at an empty filename with decodable lines, and at a filename with no lines. -/
theorem c11_save_needs_name_and_lines_witness :
    saveAttachment emptyFiles [] ["aGVsbG8=".toList] = emptyFiles ∧
      saveAttachment emptyFiles "a.txt".toList [] = emptyFiles :=
  ⟨c11_save_needs_name_and_lines emptyFiles [] ["aGVsbG8=".toList] (Or.inl rfl),
    c11_save_needs_name_and_lines emptyFiles "a.txt".toList [] (Or.inr rfl)⟩

/-- C12: command recognition goes through the normalized form only. For every session
state and every two lines with the same normalized form, `handleQuery` returns the
same code and reply and leaves the same mode, and the loop sends the same replies;
the same holds for two whole inputs that agree line by line up to normalisation. What
is stored for a captured line is the original line, not its normalized form. -/
theorem c12_same_normal_form_same_reply (norm : GoString → GoString) (save : Bool)
    (s : SinkClient) (files : FileMap) (l1 l2 : GoString) (ls1 ls2 : List GoString)
    (h : norm l1 = norm l2) (hs : List.Forall₂ (fun a b => norm a = norm b) ls1 ls2) :
    (handleQuery save s (norm l1) l1).code = (handleQuery save s (norm l2) l2).code ∧
      (handleQuery save s (norm l1) l1).reply = (handleQuery save s (norm l2) l2).reply ∧
      (handleQuery save s (norm l1) l1).client.dataSent =
        (handleQuery save s (norm l2) l2).client.dataSent ∧
      ((handleQuery save s (norm l1) l1).client.attachmentData = s.attachmentData ∨
        (handleQuery save s (norm l1) l1).client.attachmentData =
          s.attachmentData ++ [l1]) ∧
      (sessionLoop norm save s files (l1 :: ls1)).replies =
        (sessionLoop norm save s files (l2 :: ls2)).replies ∧
      (sessionLoop norm save s files (l1 :: ls1)).client.dataSent =
        (sessionLoop norm save s files (l2 :: ls2)).client.dataSent := by
  have hq := handleQuery_same save s s (norm l1) l1 l2 rfl
  have hl := sessionLoop_replies_same norm save (l1 :: ls1) (l2 :: ls2)
    (List.Forall₂.cons h hs) s s files files rfl
  rw [← h]
  exact ⟨hq.1, hq.2.1, hq.2.2, handleQuery_stores save s (norm l1) l1, hl.1, hl.2⟩

/-- C12 at `QUIT` and ` Quit `: both end the session with 221 `Bye`; and at `DATA`,
both enter body-capture. -/
theorem c12_same_normal_form_same_reply_witness :
    (sessionLoop normalize true NewSinkClient emptyFiles
        ("QUIT".toList :: ["HELO".toList])).replies =
      (sessionLoop normalize true NewSinkClient emptyFiles
        (" Quit ".toList :: [" helo".toList])).replies ∧
    (sessionLoop normalize true NewSinkClient emptyFiles
        (" Quit ".toList :: [" helo".toList])).replies = [(221, "Bye")] ∧
    (handleQuery true NewSinkClient (normalize "DATA".toList) "DATA".toList).client.dataSent =
      true :=
  ⟨(c12_same_normal_form_same_reply normalize true NewSinkClient emptyFiles "QUIT".toList
      " Quit ".toList ["HELO".toList] [" helo".toList] (by decide)
      (List.Forall₂.cons (by decide) List.Forall₂.nil)).2.2.2.2.1,
    by decide, by decide⟩

/-- C13, as stated, fails: in the body `filename="a.txt"`, marker, `aGVsbG8=`, `--b`,
marker, `d29ybGQ=`, `--b` the second section has no filename marker of its own, yet it
is persisted under `a.txt` and overwrites the first attachment: `a.txt` ends with the
bytes of `world`. -/
theorem c13_later_section_reuses_filename :
    filenameRegexFind "Content-Transfer-Encoding: base64".toList = none ∧
    filenameRegexFind "d29ybGQ=".toList = none ∧
    filenameRegexFind "--b".toList = none ∧
    DecodeString (Join ["aGVsbG8=".toList]) = some [104, 101, 108, 108, 111] ∧
    processAttachments emptyFiles
      ["filename=\"a.txt\"".toList, "Content-Transfer-Encoding: base64".toList,
       "aGVsbG8=".toList, "--b".toList, "Content-Transfer-Encoding: base64".toList,
       "d29ybGQ=".toList, "--b".toList] "a.txt".toList =
        some [119, 111, 114, 108, 100] := by
  decide

/-- C13, amended: the filename is sticky for the rest of the body. An iteration of the
loop changes it only on a filename-marker line, so neither an encoding marker nor a
persisted attachment clears it. For every body in which the last filename-marker line
in front of a well-formed section is `fnLine` with the value `name`, whatever stands
before that line and whatever marker-free lines (earlier sections saved under `name`
among them) stand between it and the section, all the section does to the directory
is one `os.WriteFile` of `name` with the section's decoding: the section is persisted
under that earlier filename, and when the write succeeds it replaces what `name` held. -/
theorem c13_filename_stays (files : FileMap) (p1 p2 : List GoString)
    (name fnLine enc b : GoString) (content : List GoString) (data : List Nat)
    (hfn : filenameRegexFind fnLine = some name)
    (hp2 : ∀ l ∈ p2, filenameRegexFind l = none)
    (hef : filenameRegexFind enc = none) (hee : encodingRegexMatch enc = true)
    (hn : content ≠ []) (hdec : DecodeString (Join content) = some data)
    (hbp : HasPrefix b "--".toList = true)
    (hbf : filenameRegexFind b = none) (hbe : encodingRegexMatch b = false) :
    (∀ (st : ScanState) (l : GoString),
        (scanLine st l).filename = (filenameRegexFind l).getD st.filename) ∧
      (scanLines (ScanState.init files) (p1 ++ fnLine :: p2)).filename = name ∧
      processAttachments files (p1 ++ fnLine :: (p2 ++ enc :: (content ++ [b]))) =
        afterWrite (scanLines (ScanState.init files) (p1 ++ fnLine :: p2)).files name data ∧
      (∀ file, files.resolve name = some file →
        processAttachments files (p1 ++ fnLine :: (p2 ++ enc :: (content ++ [b]))) name =
          some data) := by
  have hname : (scanLines (ScanState.init files) (p1 ++ fnLine :: p2)).filename = name := by
    rw [scanLines_append, scanLines_cons, scanLines_keep_name p2 _ hp2,
      scanLine_filename _ _ _ hfn]
  have hproc : processAttachments files (p1 ++ fnLine :: (p2 ++ enc :: (content ++ [b]))) =
      afterWrite (scanLines (ScanState.init files) (p1 ++ fnLine :: p2)).files name
        data := by
    have e : p1 ++ fnLine :: (p2 ++ enc :: (content ++ [b])) =
        (p1 ++ fnLine :: p2) ++ enc :: (content ++ [b]) := by simp
    unfold processAttachments
    simp only
    rw [e, scanLines_append,
      scanLines_closed_section _ enc b content data
        (by rw [hname]; exact filenameRegexFind_ne_nil _ _ hfn) hef hee hn hdec hbp hbf hbe,
      hname]
    simp
  refine ⟨scanLine_keeps_name, hname, hproc, ?_⟩
  intro file hfile
  rw [hproc]
  have hres : (scanLines (ScanState.init files) (p1 ++ fnLine :: p2)).files.resolve name =
      some file := by
    rw [scanLines_resolve]
    exact hfile
  exact read_afterWrite_same _ name name file data hres hres

/-- C13, amended, at the body `filename="a.txt"`, marker, `aGVsbG8=`, `--b`, marker,
`d29ybGQ=`, `--end`: the second section has no filename marker of its own and `a.txt`
ends with the bytes of `world`. -/
theorem c13_filename_stays_witness :
    processAttachments emptyFiles
      ["filename=\"a.txt\"".toList,
       "Content-Transfer-Encoding: base64".toList, "aGVsbG8=".toList, "--b".toList,
       "Content-Transfer-Encoding: base64".toList, "d29ybGQ=".toList, "--end".toList]
      "a.txt".toList =
      some [119, 111, 114, 108, 100] :=
  (c13_filename_stays emptyFiles []
    ["Content-Transfer-Encoding: base64".toList, "aGVsbG8=".toList, "--b".toList]
    "a.txt".toList "filename=\"a.txt\"".toList "Content-Transfer-Encoding: base64".toList
    "--end".toList ["d29ybGQ=".toList] [119, 111, 114, 108, 100]
    (by decide) (by decide) (by decide) (by decide) (by decide) (by decide) (by decide)
    (by decide) (by decide)).2.2.2 "a.txt".toList (by decide)

/-- C15, as stated, fails: in the body `Content-Transfer-Encoding: base64;
filename="a.txt"`, `aGVsbG8=` an encoding marker was seen, no later line begins with
`--`, a filename has been recorded and the content is valid base64, yet nothing is
persisted: the first line holds both markers, so it only records the filename and
opens no section. -/
theorem c15_marker_on_filename_line_opens_nothing :
    encodingRegexMatch "Content-Transfer-Encoding: base64; filename=\"a.txt\"".toList = true ∧
    filenameRegexFind "Content-Transfer-Encoding: base64; filename=\"a.txt\"".toList =
      some "a.txt".toList ∧
    HasPrefix "aGVsbG8=".toList "--".toList = false ∧
    DecodeString (Join ["aGVsbG8=".toList]) = some [104, 101, 108, 108, 111] ∧
    saveCalls emptyFiles
      ["Content-Transfer-Encoding: base64; filename=\"a.txt\"".toList,
       "aGVsbG8=".toList] = [] ∧
    processAttachments emptyFiles
      ["Content-Transfer-Encoding: base64; filename=\"a.txt\"".toList,
       "aGVsbG8=".toList] "a.txt".toList = none := by
  decide

/-- C15, amended: for every body `pre ++ enc :: tail` in which `enc` is an
encoding-marker line with no filename marker in it, every line of `tail` is a
filename-marker line or a line that neither matches the encoding marker nor begins
with `--` (so the section is still open at the end), and the last filename-marker
line of the body has the value `name`, `processAttachments` ends by calling
`saveAttachment` with `name` and the lines accumulated since `enc`: the lines of
`tail` that are no filename marker, each trimmed. When there is at least one such
line and their concatenation is valid base64, that is one `os.WriteFile` of `name`
with the decoding, and when the write succeeds `name` holds the decoding afterwards. -/
theorem c15_open_section_saved_at_end (files : FileMap) (pre tail : List GoString)
    (enc name : GoString)
    (hef : filenameRegexFind enc = none) (hee : encodingRegexMatch enc = true)
    (htail : ∀ l ∈ tail, (filenameRegexFind l).isSome = true ∨
      (encodingRegexMatch l = false ∧ HasPrefix l "--".toList = false))
    (hname : ((pre ++ enc :: tail).filterMap filenameRegexFind).getLast? = some name) :
    processAttachments files (pre ++ enc :: tail) =
        saveAttachment (scanLines (ScanState.init files) pre).files name
          ((tail.filter fun l => (filenameRegexFind l).isNone).map TrimSpace) ∧
      (∀ data, (tail.filter fun l => (filenameRegexFind l).isNone) ≠ [] →
        DecodeString (Join ((tail.filter fun l => (filenameRegexFind l).isNone).map
          TrimSpace)) = some data →
        processAttachments files (pre ++ enc :: tail) =
            afterWrite (scanLines (ScanState.init files) pre).files name data ∧
          ∀ file, files.resolve name = some file →
            processAttachments files (pre ++ enc :: tail) name = some data) := by
  have hp := processAttachments_open_end files pre tail enc name hef hee htail hname
  refine ⟨hp, ?_⟩
  intro data hne hdec
  have hne0 : name ≠ [] := by
    obtain ⟨l, _, hl⟩ := List.mem_filterMap.mp (List.mem_of_getLast?_eq_some hname)
    exact filenameRegexFind_ne_nil l name hl
  have hw : processAttachments files (pre ++ enc :: tail) =
      afterWrite (scanLines (ScanState.init files) pre).files name data := by
    rw [hp]
    exact saveAttachment_ok _ _ _ data hne0 (by simpa using hne) hdec
  refine ⟨hw, ?_⟩
  intro file hfile
  rw [hw]
  have hres : (scanLines (ScanState.init files) pre).files.resolve name = some file := by
    rw [scanLines_resolve]
    exact hfile
  exact read_afterWrite_same _ name name file data hres hres

/-- C15, amended, at the body `filename="a.txt"`, marker, `aGVs`, ` bG8= ` with no
closing line: `a.txt` holds the bytes of `hello`. -/
theorem c15_open_section_saved_at_end_witness :
    processAttachments emptyFiles
      (["filename=\"a.txt\"".toList] ++ "Content-Transfer-Encoding: base64".toList ::
        ["aGVs".toList, " bG8= ".toList]) "a.txt".toList =
      some [104, 101, 108, 108, 111] :=
  ((c15_open_section_saved_at_end emptyFiles ["filename=\"a.txt\"".toList]
    ["aGVs".toList, " bG8= ".toList] "Content-Transfer-Encoding: base64".toList
    "a.txt".toList (by decide) (by decide) (by decide) (by decide)).2
    [104, 101, 108, 108, 111] (by decide) (by decide)).2 "a.txt".toList (by decide)

/-- C16: a body line that contains `filename="v"` with a non-empty `v` only records a
filename: whatever else the line holds, the encoding marker or a leading `--`
included, the iteration changes the filename and nothing else (the section is neither
opened nor closed, the accumulator and the files are untouched) and makes no call of
`saveAttachment`. -/
theorem c16_filename_line_only_names (st : ScanState) (pre v post : GoString)
    (hv : v ≠ []) (hq : dquote ∉ v) :
    ∃ name, name ≠ [] ∧
      filenameRegexFind (pre ++ (filenameLit ++ (v ++ dquote :: post))) = some name ∧
      scanLine st (pre ++ (filenameLit ++ (v ++ dquote :: post))) =
        { filename := name, inAttachment := st.inAttachment, b64Lines := st.b64Lines,
          files := st.files } ∧
      scanCalls st [pre ++ (filenameLit ++ (v ++ dquote :: post))] = [] := by
  obtain ⟨name, hname⟩ := Option.isSome_iff_exists.mp
    (filenameRegexFind_of_contains pre v post hv hq)
  refine ⟨name, filenameRegexFind_ne_nil _ _ hname, hname,
    scanLine_filename st _ name hname, ?_⟩
  simp [scanCalls, closesSection, hname]

/-- C16 at the line `--Content-Transfer-Encoding: base64; filename="a.txt"` met in an
open section: the section stays open and the accumulator is as before. -/
theorem c16_filename_line_only_names_witness :
    ∃ name, name ≠ [] ∧
      filenameRegexFind ("--Content-Transfer-Encoding: base64; ".toList ++
        (filenameLit ++ ("a.txt".toList ++ dquote :: []))) = some name ∧
      scanLine { filename := [], inAttachment := true, b64Lines := ["aGVs".toList],
                 files := emptyFiles }
        ("--Content-Transfer-Encoding: base64; ".toList ++
          (filenameLit ++ ("a.txt".toList ++ dquote :: []))) =
        { filename := name, inAttachment := true, b64Lines := ["aGVs".toList],
          files := emptyFiles } ∧
      scanCalls { filename := [], inAttachment := true, b64Lines := ["aGVs".toList],
                  files := emptyFiles }
        ["--Content-Transfer-Encoding: base64; ".toList ++
          (filenameLit ++ ("a.txt".toList ++ dquote :: []))] = [] :=
  c16_filename_line_only_names
    { filename := [], inAttachment := true, b64Lines := ["aGVs".toList], files := emptyFiles }
    "--Content-Transfer-Encoding: base64; ".toList "a.txt".toList [] (by decide) (by decide)

/-- C17, as stated, fails: not every line that matches the encoding marker resets the
accumulator. In the body `filename="a.txt"`, marker, `aGVs`,
`Content-Transfer-Encoding: base64; filename="b.txt"`, `bG8=`, `--b` the fourth line
matches the encoding marker and is the last to do so in front of the closing line, yet
the one call of `saveAttachment` gets `aGVs` and `bG8=`: the line in front of that
marker is decoded and written with the rest, as `b.txt`. -/
theorem c17_marker_on_filename_line_resets_nothing :
    encodingRegexMatch "Content-Transfer-Encoding: base64; filename=\"b.txt\"".toList = true ∧
    saveCalls emptyFiles
      ["filename=\"a.txt\"".toList, "Content-Transfer-Encoding: base64".toList,
       "aGVs".toList, "Content-Transfer-Encoding: base64; filename=\"b.txt\"".toList,
       "bG8=".toList, "--b".toList] = [("b.txt".toList, ["aGVs".toList, "bG8=".toList])] ∧
    DecodeString (Join ["bG8=".toList]) ≠ some [104, 101, 108, 108, 111] ∧
    processAttachments emptyFiles
      ["filename=\"a.txt\"".toList, "Content-Transfer-Encoding: base64".toList,
       "aGVs".toList, "Content-Transfer-Encoding: base64; filename=\"b.txt\"".toList,
       "bG8=".toList, "--b".toList] "b.txt".toList = some [104, 101, 108, 108, 111] := by
  decide

/-- C17, amended: every line that matches the encoding marker and holds no filename
marker resets the accumulator. For every body, what `processAttachments` does to the
directory is its calls of `saveAttachment` in order, each call is made at a closing
line or at the end of the body, and its lines are exactly what the specification
describes for the lines `before` that point: the trimmed lines that are no filename
marker and lie strictly after the last such encoding-marker line. Lines in front of
that line do not count: they are discarded and never written. -/
theorem c17_saved_lines_follow_last_marker (files : FileMap) (body : List GoString)
    (c : GoString × List GoString) (hc : c ∈ saveCalls files body) :
    (∃ before after, body = before ++ after ∧ c.2 = specEncodedLines before ∧
        (scanLines (ScanState.init files) before).inAttachment = true ∧
        (scanLines (ScanState.init files) before).b64Lines = specEncodedLines before ∧
        (after = [] ∨ ∃ b rest, after = b :: rest ∧
          closesSection (scanLines (ScanState.init files) before) b = true)) ∧
      (∀ pre enc mid, isEncodingMarker enc = true →
        specEncodedLines (pre ++ enc :: mid) = specEncodedLines (enc :: mid)) ∧
      processAttachments files body =
        (saveCalls files body).foldl (fun f c => saveAttachment f c.1 c.2) files := by
  refine ⟨?_, fun pre enc mid h => specEncodedLines_reset pre mid enc h,
    processAttachments_calls files body⟩
  unfold saveCalls at hc
  rcases List.mem_append.mp hc with h1 | h2
  · have h1' : c ∈ scanCalls (scanLines (ScanState.init files) []) body := h1
    obtain ⟨mid, b, after, e1, e2, e3⟩ := scanCalls_spec files body [] c h1'
    rw [List.nil_append] at e2 e3
    have hin : (scanLines (ScanState.init files) mid).inAttachment = true := by
      unfold closesSection at e2
      simp only [Bool.and_eq_true] at e2
      exact e2.1.2
    exact ⟨mid, b :: after, e1, by rw [e3], hin, scanLines_spec files mid hin,
      Or.inr ⟨b, after, rfl, e2⟩⟩
  · by_cases hcond : (scanLines (ScanState.init files) body).inAttachment = true ∧
        (scanLines (ScanState.init files) body).filename ≠ []
    · rw [if_pos hcond] at h2
      have hs := scanLines_spec files body hcond.1
      refine ⟨body, [], (List.append_nil body).symm, ?_, hcond.1, hs, Or.inl rfl⟩
      rw [List.mem_singleton.mp h2, hs]
    · rw [if_neg hcond] at h2
      exact absurd h2 (List.not_mem_nil c)

/-- C17, amended, at the body `filename="a.txt"`, marker, `junk`, marker, ` aGVsbG8=`,
`--b`: the one call is made with `aGVsbG8=` alone. -/
theorem c17_saved_lines_follow_last_marker_witness :
    saveCalls emptyFiles
      ["filename=\"a.txt\"".toList, "Content-Transfer-Encoding: base64".toList,
       "junk".toList, "Content-Transfer-Encoding: base64".toList, " aGVsbG8=".toList,
       "--b".toList] = [("a.txt".toList, ["aGVsbG8=".toList])] ∧
    ∃ before after,
      ["filename=\"a.txt\"".toList, "Content-Transfer-Encoding: base64".toList,
       "junk".toList, "Content-Transfer-Encoding: base64".toList, " aGVsbG8=".toList,
       "--b".toList] = before ++ after ∧
      ("a.txt".toList, ["aGVsbG8=".toList]).2 = specEncodedLines before ∧
      (scanLines (ScanState.init emptyFiles) before).inAttachment = true ∧
      (scanLines (ScanState.init emptyFiles) before).b64Lines = specEncodedLines before ∧
      (after = [] ∨ ∃ b rest, after = b :: rest ∧
        closesSection (scanLines (ScanState.init emptyFiles) before) b = true) :=
  ⟨by decide,
    (c17_saved_lines_follow_last_marker emptyFiles
      ["filename=\"a.txt\"".toList, "Content-Transfer-Encoding: base64".toList,
       "junk".toList, "Content-Transfer-Encoding: base64".toList, " aGVsbG8=".toList,
       "--b".toList] ("a.txt".toList, ["aGVsbG8=".toList]) (by decide)).1⟩

/-- C18: for every body, `processAttachments` calls `saveAttachment` at most once for
each encoding-marker line, and the file map afterwards is the result of those calls in
order, so there are at most as many writes as encoding-marker lines. Outside a section,
lines that are no encoding marker cause no call and no write, and a body with no
encoding marker writes nothing. -/
theorem c18_calls_bounded_by_markers (files : FileMap) (body : List GoString) :
    (saveCalls files body).length ≤ (body.filter isEncodingMarker).length ∧
      (body.filter isEncodingMarker).length ≤ (body.filter encodingRegexMatch).length ∧
      processAttachments files body =
        (saveCalls files body).foldl (fun f c => saveAttachment f c.1 c.2) files ∧
      (∀ (st : ScanState) (mid : List GoString), st.inAttachment = false →
        (∀ l ∈ mid, isEncodingMarker l = false) →
        scanCalls st mid = [] ∧ (scanLines st mid).inAttachment = false ∧
          (scanLines st mid).files = st.files) ∧
      ((∀ l ∈ body, isEncodingMarker l = false) →
        saveCalls files body = [] ∧ processAttachments files body = files) := by
  refine ⟨saveCalls_count files body, ?_, processAttachments_calls files body,
    fun st mid hst h => scanCalls_outside mid st hst h, ?_⟩
  · have hsub : (body.filter isEncodingMarker).Sublist (body.filter encodingRegexMatch) := by
      have e : body.filter isEncodingMarker =
          (body.filter encodingRegexMatch).filter fun l => (filenameRegexFind l).isNone := by
        rw [List.filter_filter]
        rfl
      rw [e]
      exact List.filter_sublist _
    exact hsub.length_le
  · intro h
    obtain ⟨ha, hb, hc⟩ := scanCalls_outside body (ScanState.init files) rfl h
    have hs : saveCalls files body = [] := by
      unfold saveCalls
      rw [ha, if_neg (by rw [hb]; simp)]
      rfl
    refine ⟨hs, ?_⟩
    rw [processAttachments_calls, hs]
    rfl

/-- C19, as stated, fails: a blank line put between the encoding marker and the
closing line of a section with no content makes `saveAttachment` write an empty file
`a.txt`, where without the blank line nothing is written. -/
theorem c19_blank_line_makes_empty_file :
    (∀ c ∈ " ".toList, isSpace c = true) ∧
    processAttachments emptyFiles
      ["filename=\"a.txt\"".toList, "Content-Transfer-Encoding: base64".toList,
       "--b".toList] "a.txt".toList = none ∧
    processAttachments emptyFiles
      ["filename=\"a.txt\"".toList, "Content-Transfer-Encoding: base64".toList,
       " ".toList, "--b".toList] "a.txt".toList = some [] := by
  decide

/-- C19, amended: for every body, white space added at the end of any line leaves the
resulting file map unchanged; and a white-space-only line put into an open encoded
section leaves it unchanged when a line has been accumulated in front of it or a
content line (no marker, not beginning with `--`) follows it, that is, when the blank
line is not the only line the section accumulates. -/
theorem c19_blank_lines_and_trailing_space (files : FileMap) (pre post : List GoString) :
    (∀ l ws : GoString, (∀ c ∈ ws, isSpace c = true) →
        processAttachments files (pre ++ (l ++ ws) :: post) =
          processAttachments files (pre ++ l :: post)) ∧
      (∀ w : GoString, (∀ c ∈ w, isSpace c = true) →
        (scanLines (ScanState.init files) pre).inAttachment = true →
        ((scanLines (ScanState.init files) pre).b64Lines ≠ [] ∨
          ∃ c rest, post = c :: rest ∧ filenameRegexFind c = none ∧
            encodingRegexMatch c = false ∧ HasPrefix c "--".toList = false) →
        processAttachments files (pre ++ w :: post) =
          processAttachments files (pre ++ post)) := by
  refine ⟨fun l ws hws => processAttachments_trailing files pre post l ws hws, ?_⟩
  intro w hw hin hne
  rcases hne with hne | ⟨c, rest, e, hcf, hce, hcp⟩
  · exact processAttachments_blank_after files pre post w hw hin hne
  · rw [e]
    exact processAttachments_blank_before files pre rest w c hw hin hcf hce hcp

/-- C19, amended: trailing white space on the only content line of a section that the
boundary follows at once, and a blank line put right behind the encoding marker, in
front of the content line `aGVsbG8=`. -/
theorem c19_blank_lines_and_trailing_space_witness :
    processAttachments emptyFiles
        (["filename=\"a.txt\"".toList, "Content-Transfer-Encoding: base64".toList] ++
          ("aGVsbG8=".toList ++ " \t".toList) :: ["--b".toList]) =
      processAttachments emptyFiles
        (["filename=\"a.txt\"".toList, "Content-Transfer-Encoding: base64".toList] ++
          "aGVsbG8=".toList :: ["--b".toList]) ∧
    processAttachments emptyFiles
        (["filename=\"a.txt\"".toList, "Content-Transfer-Encoding: base64".toList] ++
          " \t".toList :: ["aGVsbG8=".toList, "--b".toList]) =
      processAttachments emptyFiles
        (["filename=\"a.txt\"".toList, "Content-Transfer-Encoding: base64".toList] ++
          ["aGVsbG8=".toList, "--b".toList]) :=
  ⟨(c19_blank_lines_and_trailing_space emptyFiles
      ["filename=\"a.txt\"".toList, "Content-Transfer-Encoding: base64".toList]
      ["--b".toList]).1 "aGVsbG8=".toList " \t".toList (by decide),
    (c19_blank_lines_and_trailing_space emptyFiles
      ["filename=\"a.txt\"".toList, "Content-Transfer-Encoding: base64".toList]
      ["aGVsbG8=".toList, "--b".toList]).2 " \t".toList (by decide) (by decide)
      (Or.inr ⟨"aGVsbG8=".toList, ["--b".toList], rfl, by decide, by decide, by decide⟩)⟩

end MailSink
